import Mathlib

/-!
Shallow embedding of `preprocess_chatlogs.py` (class `ProcessChatlogs`).

The Python module drives four regular expressions over raw chat-transcript
strings and assembles, per transcript, a dialogue dictionary mapping the
agent name and the client name to their turn lists.  We embed the regex
semantics with a small backtracking engine (Python `re` search order:
leftmost position first, alternation left-to-right, greedy repetition
prefers longer, lazy repetition prefers shorter, `findall` scans
non-overlapping matches left to right) and translate each method of the
class into an explicit state-passing function.  Character classes are the
ASCII readings of `\d`, `\w`, `\s` and `.`.
-/

namespace Chatlogs

/-- ASCII reading of the regex class `\d`. -/
def isDigitCh (c : Char) : Bool := c.isDigit

/-- ASCII reading of the regex class `\w` (alphanumerics and underscore). -/
def isWordCh (c : Char) : Bool := c.isAlphanum || c == '_'

/-- ASCII reading of the regex class `\s`. -/
def isSpaceCh (c : Char) : Bool :=
  c == ' ' || c == '\t' || c == '\n' || c == '\r' || c == '\x0b' || c == '\x0c'

/-- Reading of the regex class `.` (anything but a newline). -/
def isDotCh (c : Char) : Bool := c != '\n'

/-- Capture slots for groups 1 and 2 (`none` = group did not participate). -/
abbrev Caps := Option (List Char) × Option (List Char)

def getCap (n : Nat) (c : Caps) : Option (List Char) :=
  if n = 1 then c.1 else if n = 2 then c.2 else none

def setCap (n : Nat) (v : List Char) (c : Caps) : Caps :=
  if n = 1 then (some v, c.2) else if n = 2 then (c.1, some v) else c

/-- Abstract syntax of the fragment of Python regexes the module uses. -/
inductive RE : Type where
  | eps
  | cls (p : Char → Bool)
  | seq (a b : RE)
  | alt (a b : RE)
  | rep (a : RE) (lo : Nat) (hi : Option Nat) (lazyRep : Bool)
  | group (n : Nat) (a : RE)
  | eol

/-- Backtracking matcher in continuation-passing style.  The continuation
receives the remaining input and the captures; the first success in
backtracking order wins, mirroring Python `re` (alternation left to
right, greedy repetition prefers another iteration, lazy repetition
prefers stopping).  Recursion is structural on `fuel`, decremented at
every step; `matchAt` supplies fuel that dominates the recursion depth
(every repetition body in the embedded patterns consumes at least one
character per iteration). -/
def mrun : Nat → RE → List Char → Caps →
    (List Char → Caps → Option (List Char × Caps)) →
    Option (List Char × Caps)
  | 0, _, _, _, _ => none
  | fuel + 1, r, s, caps, k =>
    match r with
    | .eps => k s caps
    | .cls p =>
      match s with
      | [] => none
      | c :: rest => if p c then k rest caps else none
    | .seq a b => mrun fuel a s caps (fun s' c' => mrun fuel b s' c' k)
    | .alt a b => (mrun fuel a s caps k) <|> (mrun fuel b s caps k)
    | .group n a =>
      mrun fuel a s caps (fun s' c' =>
        k s' (setCap n (s.take (s.length - s'.length)) c'))
    | .eol => if s.isEmpty || s == ['\n'] then k s caps else none
    | .rep a lo hi lz =>
      if hi = some 0 then
        (if lo = 0 then k s caps else none)
      else
        let iter :=
          mrun fuel a s caps (fun s' c' =>
            if s'.length < s.length then
              mrun fuel (.rep a (lo - 1) (hi.map (· - 1)) lz) s' c' k
            else none)
        if lz then (if lo = 0 then k s caps else none) <|> iter
        else iter <|> (if lo = 0 then k s caps else none)

/-- Structural size of a pattern, used to provision fuel. -/
def reSize : RE → Nat
  | .eps => 1
  | .cls _ => 1
  | .seq a b => reSize a + reSize b + 1
  | .alt a b => reSize a + reSize b + 1
  | .rep a _ _ _ => reSize a + 2
  | .group _ a => reSize a + 1
  | .eol => 1

/-- Attempt a match anchored at the start of `s` (Python tries this at each
scan position).  The fuel bounds the nesting depth of `mrun` calls: along
any path each syntactic pattern node adds one level, and each repetition
iteration (which consumes input) adds at most `reSize` more, so
`(reSize r + 2) * (length + 2)` is never exhausted. -/
def matchAt (r : RE) (s : List Char) : Option (List Char × Caps) :=
  mrun ((reSize r + 2) * (s.length + 2)) r s (none, none)
    (fun s' c' => some (s', c'))

/-- Scanner underlying `re.findall`: slide over the input, at each position
try a match; on success record (matched text, captures) and resume after
the match (advancing one character past an empty match). -/
def refindAux (r : RE) : Nat → List Char → List (List Char × Caps)
  | 0, _ => []
  | fuel + 1, s =>
    match matchAt r s with
    | some (rest, caps) =>
      let m := s.take (s.length - rest.length)
      if rest.length < s.length then
        (m, caps) :: refindAux r fuel rest
      else
        (m, caps) ::
          (match s with
           | [] => []
           | _ :: t => refindAux r fuel t)
    | none =>
      match s with
      | [] => []
      | _ :: t => refindAux r fuel t

def refindall (r : RE) (s : String) : List (List Char × Caps) :=
  refindAux r (s.data.length + 1) s.data

def rlit (c : Char) : RE := .cls (fun x => x == c)

def reSeq (l : List RE) : RE := l.foldr RE.seq RE.eps

/-- Pattern `self.regex_timestamps = r'\(\s\d{0,2}m?\(?d{0,2}s?\s?\d{1,2}s\s\)'`
(note the source's unescaped `d` after `\(?`: a literal `(`, optional,
followed by the literal letter `d` zero to two times). -/
def regex_timestamps : RE :=
  reSeq [rlit '(', .cls isSpaceCh,
    .rep (.cls isDigitCh) 0 (some 2) false,
    .rep (rlit 'm') 0 (some 1) false,
    .rep (rlit '(') 0 (some 1) false,
    .rep (rlit 'd') 0 (some 2) false,
    .rep (rlit 's') 0 (some 1) false,
    .rep (.cls isSpaceCh) 0 (some 1) false,
    .rep (.cls isDigitCh) 1 (some 2) false,
    rlit 's', .cls isSpaceCh, rlit ')']

/-- First alternative of `self.regex_with_last_response`:
`\d{0,2}s?\s?\d{1,2}s\s\)\s(.*?)\(\s` — an interior span, captured in
group 1. -/
def spanAltInterior : RE :=
  reSeq [.rep (.cls isDigitCh) 0 (some 2) false,
    .rep (rlit 's') 0 (some 1) false,
    .rep (.cls isSpaceCh) 0 (some 1) false,
    .rep (.cls isDigitCh) 1 (some 2) false,
    rlit 's', .cls isSpaceCh, rlit ')', .cls isSpaceCh,
    .group 1 (.rep (.cls isDotCh) 0 none true),
    rlit '(', .cls isSpaceCh]

/-- Second alternative of `self.regex_with_last_response`:
`\s\)\s(.*$)` — the trailing span, captured in group 2. -/
def spanAltTrailing : RE :=
  reSeq [.cls isSpaceCh, rlit ')', .cls isSpaceCh,
    .group 2 (.seq (.rep (.cls isDotCh) 0 none false) .eol)]

/-- Pattern `self.regex_with_last_response =
r'\d{0,2}s?\s?\d{1,2}s\s\)\s(.*?)\(\s|\s\)\s(.*$)'`. -/
def regex_with_last_response : RE := .alt spanAltInterior spanAltTrailing

/-- Method `self.apply_timestamp_regex`: `re.findall` with no capture groups
returns the full matched substrings. -/
def apply_timestamp_regex (chatlog : String) : List String :=
  (refindall regex_timestamps chatlog).map (fun pr => String.mk pr.1)

/-- Method `self.apply_chat_sentence_regex`: `re.findall` with two capture groups
returns pairs, a non-participating group rendered as `''`. -/
def apply_chat_sentence_regex (chatlog : String) : List (String × String) :=
  (refindall regex_with_last_response chatlog).map
    (fun pr => (String.mk (pr.2.1.getD []), String.mk (pr.2.2.getD [])))

/-- Match of `Agent\s(\w+)` anchored at the current position: the literal
`Agent`, one whitespace, then a maximal nonempty run of word characters
(the capture). -/
def agentMatchAt : List Char → Option (List Char)
  | 'A' :: 'g' :: 'e' :: 'n' :: 't' :: w :: rest =>
    if isSpaceCh w then
      let name := rest.takeWhile isWordCh
      if name.isEmpty then none else some name
    else none
  | _ => none

/-- Leftmost match of `self.regex_agent_name = r'Agent\s(\w+)'`, returning
the group-1 capture (`re.findall(...)[0]`; `none` models the
`IndexError` when there is no match). -/
def findAgentName : List Char → Option (List Char)
  | [] => none
  | c :: t => (agentMatchAt (c :: t)) <|> findAgentName t

/-- Match of `(.*?:\s)` anchored at the current position: the lazy `.*?`
grows one (non-newline) character at a time until a `:` followed by one
whitespace character is found. -/
def clientMatchAt : List Char → Option (List Char)
  | [] => none
  | c :: t =>
    if c == ':' && (match t with | w :: _ => isSpaceCh w | [] => false) then
      some (c :: t.take 1)
    else if c == '\n' then none
    else (clientMatchAt t).map (c :: ·)

/-- Leftmost match of `self.regex_client_name = r'(.*?:\s)'`
(`re.findall(...)[0]`; `none` models the uncaught `IndexError`). -/
def clientNameOf : List Char → Option (List Char)
  | [] => none
  | c :: t => (clientMatchAt (c :: t)) <|> clientNameOf t

/-- Method `self.apply_agent_regex`: the first `Agent <name>` capture, or the
sentinel `'No agent'` when the `IndexError` is caught. -/
def apply_agent_regex (chatlog : String) : String :=
  match findAgentName chatlog.data with
  | some n => String.mk n
  | none => "No agent"

/-- Python's substring test `pat in s`. -/
def isSubstringOf (pat : List Char) : List Char → Bool
  | [] => pat.isEmpty
  | c :: t => pat.isPrefixOf (c :: t) || isSubstringOf pat t

/-- Worker for `str.replace(pat, '')`: left-to-right, non-overlapping. -/
def replGo (pat : List Char) : Nat → List Char → List Char
  | _, [] => []
  | 0, s => s
  | fuel + 1, c :: t =>
    if pat.isPrefixOf (c :: t) then replGo pat fuel ((c :: t).drop pat.length)
    else c :: replGo pat fuel t

/-- Python `s.replace(pat, '')` (for the nonempty patterns the module
builds; on an empty pattern Python also returns `s` unchanged when the
replacement is empty). -/
def replaceAllStr (pat s : String) : String :=
  if pat.data.isEmpty then s
  else String.mk (replGo pat.data s.data.length s.data)

/-- A turn: `(sentence_index, stripped text, timestamp)`. -/
abbrev Turn := Nat × String × String

/-- Dialogue dict `sentence_dict`: a Python dict as an insertion-ordered association
list. -/
abbrev DialogueMap := List (String × List Turn)

/-- Python dict assignment `d[k] = v`: replace in place if the key exists,
else append. -/
def dictInsert {α β : Type} [DecidableEq α] (k : α) (v : β) :
    List (α × β) → List (α × β)
  | [] => [(k, v)]
  | (k', v') :: rest =>
    if k' = k then (k', v) :: rest else (k', v') :: dictInsert k v rest

/-- Python dict lookup `d.get(k)`. -/
def dictGet {α β : Type} [DecidableEq α] (k : α) :
    List (α × β) → Option β
  | [] => none
  | (k', v') :: rest => if k' = k then some v' else dictGet k rest

/-- Exceptions the module can raise. -/
inductive PyErr : Type where
  | indexError
  | nameError
  | valueError
deriving DecidableEq, Repr

/-- The mutable attributes of a `ProcessChatlogs` instance. -/
structure PCState : Type where
  chatlogs : List String
  chat_dict : List (Nat × DialogueMap)
  agent_error_logs : List String
  client_error_logs : List Nat
deriving Repr

/-- Constructor `ProcessChatlogs(chatlogs)`: fresh dict and error logs. -/
def initPC (chatlogs : List String) : PCState :=
  { chatlogs := chatlogs, chat_dict := [], agent_error_logs := [],
    client_error_logs := [] }

/-- The local variables of the per-pair loop in `acquire_dialogue`:
`agent_name` (reassignable), `actual_client_name` (`none` = still
unbound), and the two turn lists. -/
structure LoopSt : Type where
  agent : String
  acn : Option String
  agents : List Turn
  clients : List Turn
deriving Repr

/-- One iteration of the loop body (lines 126-139): extract the client
name (uncaught `IndexError` when the regex finds nothing), apply the
`Klantenservice` alias reassignment, then bucket the pair as an agent
turn when `f"{agent_name}: "` occurs in the sentence and as a client turn
otherwise (also recording `actual_client_name`). -/
def stepOf : String × String → Nat → LoopSt → Except PyErr LoopSt
  | (sentence, timestamp), i, st =>
    match clientNameOf sentence.data with
    | none => .error .indexError
    | some cn =>
      let client_name := String.mk cn
      let ag := if client_name = "Klantenservice: " then "Klantenservice"
                else st.agent
      if isSubstringOf (ag ++ ": ").data sentence.data then
        .ok { st with
          agent := ag,
          agents := st.agents ++
            [(i, replaceAllStr (ag ++ ": ") sentence, timestamp)] }
      else
        .ok { st with
          agent := ag,
          acn := some client_name,
          clients := st.clients ++
            [(i, replaceAllStr client_name sentence, timestamp)] }

/-- The loop `for sentence_index, (sentence, timestamp) in
enumerate(zip(sentences, time_stamps))` (lines 123-139), iterating
`stepOf` and propagating the uncaught exception. -/
def buildLoop : List (String × String) → Nat → LoopSt → Except PyErr LoopSt
  | [], _, st => .ok st
  | p :: rest, i, st =>
    match stepOf p i st with
    | .error e => .error e
    | .ok st' => buildLoop rest (i + 1) st'

/-- Lines 109-115: keep, per span, whichever capture slot is populated
(both `if`s run, so a span with two empty slots contributes twice). -/
def selectSentences : List (String × String) → List String
  | [] => []
  | (s0, s1) :: rest =>
    ((if s0 = "" then [s1] else []) ++ (if s1 = "" then [s0] else [])) ++
      selectSentences rest

/-- The `(sentence, timestamp)` pairs `zip(sentences, time_stamps)`
processed for a chatlog. -/
def pairsOf (chatlog : String) : List (String × String) :=
  (selectSentences (apply_chat_sentence_regex chatlog)).zip
    (apply_timestamp_regex chatlog)

/-- Lines 141-143: `sentence_dict[agent_name] = agent_sentences;
sentence_dict[actual_client_name] = client_sentences`. -/
def mkDialogue (ls : LoopSt) (actual_client_name : String) : DialogueMap :=
  dictInsert actual_client_name ls.clients
    (dictInsert ls.agent ls.agents [])

/-- The body of `acquire_dialogue` (lines 89-147), threading the
function-local `actual_client_name` across chatlogs (it is never reset
per transcript).  Returns the updated instance state and either `()` or
the uncaught exception; on an exception the state reflects the mutations
made before the raise, as in Python. -/
def acquireGo : List String → Nat → Option String → PCState →
    PCState × Except PyErr Unit
  | [], _, _, st => (st, .ok ())
  | chatlog :: rest, idx, acn, st =>
    let agent_name := apply_agent_regex chatlog
    if agent_name = "No agent" then
      acquireGo rest (idx + 1) acn
        { st with agent_error_logs := st.agent_error_logs ++ [chatlog] }
    else
      match buildLoop (pairsOf chatlog) 0
          { agent := agent_name, acn := acn, agents := [], clients := [] } with
      | .error e => (st, .error e)
      | .ok ls =>
        match ls.acn with
        | none => (st, .error .nameError)
        | some c =>
          acquireGo rest (idx + 1) (some c)
            { st with chat_dict :=
                dictInsert idx (mkDialogue ls c) st.chat_dict }

/-- Method `self.acquire_dialogue()`: run the loop over `self.chatlogs` from
index 0 with `actual_client_name` unbound, and return `self.chat_dict`. -/
def acquire_dialogue (st : PCState) : PCState × Except PyErr (List (Nat × DialogueMap)) :=
  match acquireGo st.chatlogs 0 none st with
  | (st', .ok ()) => (st', .ok st'.chat_dict)
  | (st', .error e) => (st', .error e)

/-- The loop of `find_chatlogs_without_client` (lines 158-163):
`CSM, KLT = dialogue.keys()` (a `ValueError` unless there are exactly two
keys), and the key is appended to `client_error_logs` when the `KLT` turn
list is empty. -/
def findGo : List (Nat × DialogueMap) → PCState → PCState × Except PyErr Unit
  | [], st => (st, .ok ())
  | (key, dialogue) :: rest, st =>
    match dialogue.map Prod.fst with
    | [_, klt] =>
      match dictGet klt dialogue with
      | some turns =>
        if turns = [] then
          findGo rest
            { st with client_error_logs := st.client_error_logs ++ [key] }
        else findGo rest st
      | none => (st, .error .valueError)
    | _ => (st, .error .valueError)

/-- Method `self.find_chatlogs_without_client()`: rebuild the dialogues, append
the indexes of client-less dialogues, and return the whole
`self.client_error_logs` list. -/
def find_chatlogs_without_client (st : PCState) :
    PCState × Except PyErr (List Nat) :=
  match acquire_dialogue st with
  | (st', .error e) => (st', .error e)
  | (st', .ok chat_dict) =>
    match findGo chat_dict st' with
    | (st'', .ok ()) => (st'', .ok st''.client_error_logs)
    | (st'', .error e) => (st'', .error e)

/-- Method `self.return_chatlogs()`: drop from `self.chat_dict` every index in
`client_errors`. -/
def return_chatlogs (st : PCState) :
    PCState × Except PyErr (List (Nat × DialogueMap)) :=
  match find_chatlogs_without_client st with
  | (st', .error e) => (st', .error e)
  | (st', .ok client_errors) =>
    (st', .ok (st'.chat_dict.filter (fun kv => ¬ kv.1 ∈ client_errors)))

/-! Auxiliary notions used only in the verification below (not part of the
translated program): a stateless mirror of the `acquire_dialogue` pass and
of the `find_chatlogs_without_client` loop, and predicates describing the
shapes the pipeline produces. -/

/-- Sequential dict update by a list of key/value pairs. -/
def bulkIns {α β : Type} [DecidableEq α]
    (d : List (α × β)) (l : List (α × β)) : List (α × β) :=
  l.foldl (fun d kv => dictInsert kv.1 kv.2 d) d

/-- Stateless mirror of one `acquire_dialogue` pass: returns the raw
chatlogs appended to `agent_error_logs`, the `(index, dialogue)` entries
written to `chat_dict`, and the outcome. -/
def passOf : List String → Nat → Option String →
    List String × List (Nat × DialogueMap) × Except PyErr Unit
  | [], _, _ => ([], [], .ok ())
  | chatlog :: rest, idx, acn =>
    let agent_name := apply_agent_regex chatlog
    if agent_name = "No agent" then
      let t := passOf rest (idx + 1) acn
      (chatlog :: t.1, t.2.1, t.2.2)
    else
      match buildLoop (pairsOf chatlog) 0
          { agent := agent_name, acn := acn, agents := [], clients := [] } with
      | .error e => ([], [], .error e)
      | .ok ls =>
        match ls.acn with
        | none => ([], [], .error .nameError)
        | some c =>
          let t := passOf rest (idx + 1) (some c)
          (t.1, (idx, mkDialogue ls c) :: t.2.1, t.2.2)

/-- Stateless mirror of the `find_chatlogs_without_client` loop: the
indexes appended to `client_error_logs`, and the outcome. -/
def findPass : List (Nat × DialogueMap) → List Nat × Except PyErr Unit
  | [] => ([], .ok ())
  | (key, dialogue) :: rest =>
    match dialogue.map Prod.fst with
    | [_, klt] =>
      match dictGet klt dialogue with
      | some turns =>
        let t := findPass rest
        if turns = [] then (key :: t.1, t.2) else t
      | none => ([], .error .valueError)
    | _ => ([], .error .valueError)

/-- A string ending in a whitespace character (every client-name match
does). -/
def EndsSpace (v : String) : Prop :=
  ∃ u w, v.data = u ++ [w] ∧ isSpaceCh w = true

/-- Every string the threaded `actual_client_name` can hold ends in a
whitespace character. -/
def AcnGood : Option String → Prop :=
  fun o => ∀ v, o = some v → EndsSpace v

/-- A string whose characters are all word characters, and nonempty
(every extracted agent name, and the literal `Klantenservice`). -/
def WordStr (v : String) : Prop :=
  v.data ≠ [] ∧ ∀ c ∈ v.data, isWordCh c = true

/-- Mirror of the classification made by the pair loop: every paired
span is bucketed as an agent turn (the transcript is a monologue in the
code's own terms). -/
def allAgentPairsB : String → List (String × String) → Bool
  | _, [] => true
  | a, (sentence, _) :: rest =>
    match clientNameOf sentence.data with
    | none => false
    | some cn =>
      let client_name := String.mk cn
      let ag := if client_name = "Klantenservice: " then "Klantenservice"
                else a
      isSubstringOf (ag ++ ": ").data sentence.data && allAgentPairsB ag rest

/-- Number of paired spans whose extracted client-name prefix equals the
reserved service label (the quantity the spec's turn-count law
subtracts). -/
def countAliasPairs (chatlog : String) : Nat :=
  (pairsOf chatlog).countP
    (fun p => clientNameOf p.1.data = some "Klantenservice: ".data)

/-- Pattern `r` contains no capture group numbered `n`. -/
def NoGroup (g : Nat) : RE → Prop
  | .eps => True
  | .cls _ => True
  | .seq a b => NoGroup g a ∧ NoGroup g b
  | .alt a b => NoGroup g a ∧ NoGroup g b
  | .rep a _ _ _ => NoGroup g a
  | .group n a => n ≠ g ∧ NoGroup g a
  | .eol => True

theorem bulkIns_nil {α β : Type} [DecidableEq α] (d : List (α × β)) :
    bulkIns d [] = d := rfl

theorem bulkIns_cons {α β : Type} [DecidableEq α] (d : List (α × β))
    (kv : α × β) (l : List (α × β)) :
    bulkIns d (kv :: l) = bulkIns (dictInsert kv.1 kv.2 d) l := rfl

/-- The stateful pass is the pure pass merged into the incoming state. -/
theorem acquireGo_eq_pass (logs : List String) : ∀ (idx : Nat)
    (acn : Option String) (st : PCState),
    acquireGo logs idx acn st =
      ({ st with
          chat_dict := bulkIns st.chat_dict (passOf logs idx acn).2.1,
          agent_error_logs :=
            st.agent_error_logs ++ (passOf logs idx acn).1 },
        (passOf logs idx acn).2.2) := by
  induction logs with
  | nil => intro idx acn st; simp [acquireGo, passOf, bulkIns]
  | cons cl rest ih =>
    intro idx acn st
    by_cases h : apply_agent_regex cl = "No agent"
    · simp only [acquireGo, passOf, h, if_pos rfl, reduceIte]
      rw [ih]
      simp [bulkIns]
    · simp only [acquireGo, passOf, h, reduceIte]
      cases hb : buildLoop (pairsOf cl) 0
          { agent := apply_agent_regex cl, acn := acn,
            agents := [], clients := [] } with
      | error e => simp [bulkIns]
      | ok ls =>
        cases hacn : ls.acn with
        | none => simp [hacn, bulkIns]
        | some c =>
          simp only [hacn]
          rw [ih]
          simp [bulkIns_cons]

/-- The stateful filter loop is the pure filter merged into the incoming
state. -/
theorem findGo_eq_pass (entries : List (Nat × DialogueMap)) :
    ∀ (st : PCState),
    findGo entries st =
      ({ st with
          client_error_logs :=
            st.client_error_logs ++ (findPass entries).1 },
        (findPass entries).2) := by
  induction entries with
  | nil => intro st; simp [findGo, findPass]
  | cons kv rest ih =>
    intro st
    obtain ⟨key, dialogue⟩ := kv
    simp only [findGo, findPass]
    cases hk : dialogue.map Prod.fst with
    | nil => simp
    | cons a t =>
      cases t with
      | nil => simp
      | cons klt t2 =>
        cases t2 with
        | nil =>
          cases hg : dictGet klt dialogue with
          | none => simp [hg]
          | some turns =>
            by_cases ht : turns = []
            · simp only [hg, ht, reduceIte]
              rw [ih]
              simp
            · simp only [hg, ht, reduceIte]
              rw [ih]
        | cons c t3 => simp

/-- Every anchored client-name match ends in a whitespace character. -/
theorem clientMatchAt_ends_space : ∀ (s r : List Char),
    clientMatchAt s = some r →
    ∃ u w, r = u ++ [w] ∧ isSpaceCh w = true := by
  intro s
  induction s with
  | nil => intro r h; simp [clientMatchAt] at h
  | cons c t ih =>
    intro r h
    unfold clientMatchAt at h
    split at h
    · cases t with
      | nil => rename_i hc; simp at hc
      | cons w t' =>
        simp only [List.take, Option.some.injEq] at h
        rename_i hc
        simp only [Bool.and_eq_true, beq_iff_eq] at hc
        exact ⟨[c], w, h.symm, hc.2⟩
    · split at h
      · simp at h
      · cases hm : clientMatchAt t with
        | none => rw [hm] at h; simp at h
        | some r0 =>
          rw [hm] at h
          simp only [Option.map_some', Option.some.injEq] at h
          obtain ⟨u, w, hu, hw⟩ := ih r0 hm
          exact ⟨c :: u, w, by rw [← h, hu]; rfl, hw⟩

/-- Every client-name match (`re.findall(regex_client_name, ...)[0]`)
ends in a whitespace character. -/
theorem clientNameOf_ends_space : ∀ (s r : List Char),
    clientNameOf s = some r →
    ∃ u w, r = u ++ [w] ∧ isSpaceCh w = true := by
  intro s
  induction s with
  | nil => intro r h; simp [clientNameOf] at h
  | cons c t ih =>
    intro r h
    unfold clientNameOf at h
    cases hm : clientMatchAt (c :: t) with
    | some r0 =>
      rw [hm] at h
      simp only [Option.some_orElse, Option.some.injEq] at h
      exact h ▸ clientMatchAt_ends_space _ _ hm
    | none =>
      rw [hm] at h
      simp only [Option.none_orElse] at h
      exact ih r h

/-- Every anchored agent-name match is a nonempty run of word
characters. -/
theorem agentMatchAt_word (s n : List Char) (h : agentMatchAt s = some n) :
    n ≠ [] ∧ ∀ c ∈ n, isWordCh c = true := by
  unfold agentMatchAt at h
  split at h
  · rename_i w rest
    split at h
    · by_cases he : (List.takeWhile isWordCh rest).isEmpty = true
      · simp [he] at h
      · simp [he] at h
        subst h
        refine ⟨by simpa [List.isEmpty_iff] using he, ?_⟩
        intro c hc
        exact List.mem_takeWhile_imp hc
    · simp at h
  · simp at h

/-- Every agent-name extraction result is a nonempty run of word
characters. -/
theorem findAgentName_word : ∀ (s n : List Char),
    findAgentName s = some n → n ≠ [] ∧ ∀ c ∈ n, isWordCh c = true := by
  intro s
  induction s with
  | nil => intro n h; simp [findAgentName] at h
  | cons c t ih =>
    intro n h
    unfold findAgentName at h
    cases hm : agentMatchAt (c :: t) with
    | some n0 =>
      rw [hm] at h
      simp only [Option.some_orElse, Option.some.injEq] at h
      exact h ▸ agentMatchAt_word (c :: t) n0 hm
    | none =>
      rw [hm] at h
      simp only [Option.none_orElse] at h
      exact ih n h

/-- When an agent is found, `apply_agent_regex` returns a nonempty run of
word characters. -/
theorem apply_agent_word (cl : String)
    (h : apply_agent_regex cl ≠ "No agent") :
    WordStr (apply_agent_regex cl) := by
  unfold apply_agent_regex at h ⊢
  cases hm : findAgentName cl.data with
  | none => rw [hm] at h; simp at h
  | some n => simpa [WordStr] using findAgentName_word cl.data n hm

/-- The reserved service label is itself a nonempty run of word
characters. -/
theorem klantenservice_word : WordStr "Klantenservice" := by
  constructor
  · decide
  · decide

/-- Word characters are never whitespace characters. -/
theorem word_not_space (c : Char) (h : isWordCh c = true) :
    isSpaceCh c = false := by
  by_contra hs
  rw [Bool.not_eq_false] at hs
  simp only [isSpaceCh, Bool.or_eq_true, beq_iff_eq] at hs
  rcases hs with ((((rfl | rfl) | rfl) | rfl) | rfl) | rfl <;>
    revert h <;> decide

/-- A nonempty all-word string never equals a string ending in
whitespace: the dialogue's agent key and client key never collide. -/
theorem wordStr_ne_endsSpace (a v : String) (ha : WordStr a)
    (hv : EndsSpace v) : a ≠ v := by
  intro he
  obtain ⟨u, w, hu, hw⟩ := hv
  obtain ⟨hne, hall⟩ := ha
  have hmem : w ∈ a.data := by
    rw [he, hu]
    exact List.mem_append_right u (List.mem_singleton.mpr rfl)
  have := word_not_space w (hall w hmem)
  rw [hw] at this
  cases this

/-- The two dict assignments of lines 141-143 yield a two-entry dict when
the keys differ. -/
theorem mkDialogue_eq (ls : LoopSt) (c : String) (h : ls.agent ≠ c) :
    mkDialogue ls c = [(ls.agent, ls.agents), (c, ls.clients)] := by
  simp [mkDialogue, dictInsert, h]

theorem stepOf_err_of_none (p : String × String) (i : Nat) (st : LoopSt)
    (h : clientNameOf p.1.data = none) :
    stepOf p i st = .error .indexError := by
  obtain ⟨s, ts⟩ := p
  unfold stepOf
  simp only at h ⊢
  rw [h]

theorem stepOf_ok_of_some (p : String × String) (i : Nat) (st : LoopSt)
    (cn : List Char) (h : clientNameOf p.1.data = some cn) :
    ∃ st', stepOf p i st = .ok st' := by
  obtain ⟨s, ts⟩ := p
  unfold stepOf
  simp only at h ⊢
  rw [h]
  simp only
  split <;> split <;> exact ⟨_, rfl⟩

/-- Shape of a successful loop-body iteration: the client name was
extracted, the agent name is alias-resolved, and exactly one turn was
appended — to the agent list when the (resolved) agent prefix occurs in
the sentence (client state untouched) or to the client list otherwise
(recording `actual_client_name`). -/
theorem stepOf_ok (p : String × String) (i : Nat) (st st' : LoopSt)
    (h : stepOf p i st = .ok st') :
    ∃ cn, clientNameOf p.1.data = some cn ∧
      st'.agent = (if String.mk cn = "Klantenservice: " then "Klantenservice"
        else st.agent) ∧
      ((isSubstringOf (st'.agent ++ ": ").data p.1.data = true ∧
          st'.acn = st.acn ∧ st'.clients = st.clients ∧
          ∃ tn, st'.agents = st.agents ++ [tn]) ∨
        (isSubstringOf (st'.agent ++ ": ").data p.1.data = false ∧
          st'.acn = some (String.mk cn) ∧ st'.agents = st.agents ∧
          ∃ tn, st'.clients = st.clients ++ [tn])) := by
  obtain ⟨s, ts⟩ := p
  unfold stepOf at h
  simp only at h
  cases hcn : clientNameOf s.data with
  | none => rw [hcn] at h; simp at h
  | some cn =>
    rw [hcn] at h
    simp only at h
    refine ⟨cn, rfl, ?_⟩
    split at h <;> rename_i hal <;> split at h <;> rename_i hsub <;>
      (injection h with h2; subst h2)
    · exact ⟨by simp [hal], Or.inl ⟨hsub, rfl, rfl, _, rfl⟩⟩
    · exact ⟨by simp [hal], Or.inr ⟨by simpa using hsub, rfl, rfl, _, rfl⟩⟩
    · exact ⟨by simp [hal], Or.inl ⟨hsub, rfl, rfl, _, rfl⟩⟩
    · exact ⟨by simp [hal], Or.inr ⟨by simpa using hsub, rfl, rfl, _, rfl⟩⟩

/-- Every successful run of the pair loop produces exactly one turn per
processed pair. -/
theorem buildLoop_counts : ∀ (ps : List (String × String)) (i : Nat)
    (st ls : LoopSt), buildLoop ps i st = .ok ls →
    ls.agents.length + ls.clients.length =
      st.agents.length + st.clients.length + ps.length := by
  intro ps
  induction ps with
  | nil => intro i st ls h; cases h; simp
  | cons p rest ih =>
    intro i st ls h
    unfold buildLoop at h
    cases hs : stepOf p i st with
    | error e => rw [hs] at h; simp at h
    | ok st' =>
      rw [hs] at h
      obtain ⟨cn, _, _, hbr⟩ := stepOf_ok p i st st' hs
      have := ih (i + 1) st' ls h
      rcases hbr with ⟨_, _, hc, tn, ha⟩ | ⟨_, _, ha, tn, hc⟩ <;>
        · rw [this, ha, hc]; simp; omega

/-- The loop either keeps the incoming agent name or replaces it with the
reserved `Klantenservice` label. -/
theorem buildLoop_agent_cases : ∀ (ps : List (String × String)) (i : Nat)
    (st ls : LoopSt), buildLoop ps i st = .ok ls →
    ls.agent = st.agent ∨ ls.agent = "Klantenservice" := by
  intro ps
  induction ps with
  | nil => intro i st ls h; cases h; exact Or.inl rfl
  | cons p rest ih =>
    intro i st ls h
    unfold buildLoop at h
    cases hs : stepOf p i st with
    | error e => rw [hs] at h; simp at h
    | ok st' =>
      rw [hs] at h
      obtain ⟨cn, _, hag, _⟩ := stepOf_ok p i st st' hs
      rcases ih (i + 1) st' ls h with h2 | h2
      · rw [h2, hag]
        split
        · exact Or.inr rfl
        · exact Or.inl rfl
      · exact Or.inr h2

/-- Once the agent name is the reserved label it stays so for the rest of
the loop. -/
theorem buildLoop_sticky (ps : List (String × String)) (i : Nat)
    (st ls : LoopSt) (h : buildLoop ps i st = .ok ls)
    (ha : st.agent = "Klantenservice") : ls.agent = "Klantenservice" := by
  rcases buildLoop_agent_cases ps i st ls h with h2 | h2
  · rw [h2, ha]
  · exact h2

/-- When some processed pair has the reserved client-name prefix, the
loop finishes with the reserved label as agent name. -/
theorem buildLoop_alias : ∀ (ps : List (String × String)) (i : Nat)
    (st ls : LoopSt), buildLoop ps i st = .ok ls →
    (∃ p ∈ ps, clientNameOf p.1.data = some "Klantenservice: ".data) →
    ls.agent = "Klantenservice" := by
  intro ps
  induction ps with
  | nil => intro i st ls h hex; simp at hex
  | cons p rest ih =>
    intro i st ls h hex
    unfold buildLoop at h
    cases hs : stepOf p i st with
    | error e => rw [hs] at h; simp at h
    | ok st' =>
      rw [hs] at h
      obtain ⟨cn, hcn, hag, _⟩ := stepOf_ok p i st st' hs
      rcases hex with ⟨q, hq, hqcn⟩
      rcases List.mem_cons.mp hq with rfl | hq2
      · have hcn2 : cn = "Klantenservice: ".data := by
          rw [hcn] at hqcn; exact Option.some.inj hqcn
        have : st'.agent = "Klantenservice" := by
          rw [hag, hcn2]
          simp
        exact buildLoop_sticky rest (i + 1) st' ls h this
      · exact ih (i + 1) st' ls h ⟨q, hq2, hqcn⟩

/-- The threaded `actual_client_name` only ever holds client-name
matches, which end in whitespace. -/
theorem buildLoop_acn_good : ∀ (ps : List (String × String)) (i : Nat)
    (st ls : LoopSt), buildLoop ps i st = .ok ls →
    AcnGood st.acn → AcnGood ls.acn := by
  intro ps
  induction ps with
  | nil => intro i st ls h hg; cases h; exact hg
  | cons p rest ih =>
    intro i st ls h hg
    unfold buildLoop at h
    cases hs : stepOf p i st with
    | error e => rw [hs] at h; simp at h
    | ok st' =>
      rw [hs] at h
      obtain ⟨cn, hcn, _, hbr⟩ := stepOf_ok p i st st' hs
      refine ih (i + 1) st' ls h ?_
      rcases hbr with ⟨_, hacn, _, _⟩ | ⟨_, hacn, _, _⟩
      · rw [hacn]; exact hg
      · intro v hv
        rw [hacn] at hv
        obtain ⟨u, w, hu, hw⟩ := clientNameOf_ends_space p.1.data cn hcn
        exact ⟨u, w, by rw [← Option.some.inj hv]; exact hu, hw⟩

/-- The client turn list only grows, and if it does not grow then
`actual_client_name` is untouched. -/
theorem buildLoop_clients_extend : ∀ (ps : List (String × String))
    (i : Nat) (st ls : LoopSt), buildLoop ps i st = .ok ls →
    ∃ ex, ls.clients = st.clients ++ ex ∧ (ex = [] → ls.acn = st.acn) := by
  intro ps
  induction ps with
  | nil => intro i st ls h; cases h; exact ⟨[], by simp, fun _ => rfl⟩
  | cons p rest ih =>
    intro i st ls h
    unfold buildLoop at h
    cases hs : stepOf p i st with
    | error e => rw [hs] at h; simp at h
    | ok st' =>
      rw [hs] at h
      obtain ⟨cn, _, _, hbr⟩ := stepOf_ok p i st st' hs
      obtain ⟨ex, hex, hexa⟩ := ih (i + 1) st' ls h
      rcases hbr with ⟨_, hacn, hc, _⟩ | ⟨_, _, _, tn, hc⟩
      · exact ⟨ex, by rw [hex, hc], fun he => by rw [hexa he, hacn]⟩
      · refine ⟨tn :: ex, ?_, ?_⟩
        · rw [hex, hc]; simp
        · intro he; cases he

/-- If a processed pair has no client-name match the loop raises. -/
theorem buildLoop_err_of_bad : ∀ (ps : List (String × String)) (i : Nat)
    (st : LoopSt), (∃ p ∈ ps, clientNameOf p.1.data = none) →
    buildLoop ps i st = .error .indexError := by
  intro ps
  induction ps with
  | nil => intro i st hex; simp at hex
  | cons p rest ih =>
    intro i st hex
    unfold buildLoop
    rcases hex with ⟨q, hq, hqcn⟩
    rcases List.mem_cons.mp hq with rfl | hq2
    · rw [stepOf_err_of_none q i st hqcn]
    · cases hcn : clientNameOf p.1.data with
      | none => rw [stepOf_err_of_none p i st hcn]
      | some cn =>
        obtain ⟨st', hs⟩ := stepOf_ok_of_some p i st cn hcn
        rw [hs]
        exact ih (i + 1) st' ⟨q, hq2, hqcn⟩

/-- A successful loop run means every processed pair had a client-name
match. -/
theorem buildLoop_ok_all_some : ∀ (ps : List (String × String)) (i : Nat)
    (st ls : LoopSt), buildLoop ps i st = .ok ls →
    ∀ p ∈ ps, clientNameOf p.1.data ≠ none := by
  intro ps i st ls h p hp hcn
  rw [buildLoop_err_of_bad ps i st ⟨p, hp, hcn⟩] at h
  simp at h

/-- When the loop classifies every pair as an agent turn, it succeeds
without touching the client list or `actual_client_name`. -/
theorem allAgentPairsB_loop : ∀ (ps : List (String × String)) (i : Nat)
    (st : LoopSt), allAgentPairsB st.agent ps = true →
    ∃ ls, buildLoop ps i st = .ok ls ∧ ls.clients = st.clients ∧
      ls.acn = st.acn := by
  intro ps
  induction ps with
  | nil => intro i st _; exact ⟨st, rfl, rfl, rfl⟩
  | cons p rest ih =>
    intro i st hall
    obtain ⟨s, ts⟩ := p
    unfold allAgentPairsB at hall
    simp only at hall
    cases hcn : clientNameOf s.data with
    | none => rw [hcn] at hall; simp at hall
    | some cn =>
      rw [hcn] at hall
      simp only [Bool.and_eq_true] at hall
      obtain ⟨st', hs⟩ := stepOf_ok_of_some (s, ts) i st cn hcn
      obtain ⟨cn2, hcn2, hag, hbr⟩ := stepOf_ok (s, ts) i st st' hs
      have hcneq : cn2 = cn := by
        simp only at hcn2
        rw [hcn] at hcn2
        exact (Option.some.inj hcn2).symm
      subst hcneq
      rcases hbr with ⟨_, hacn, hcl, _⟩ | ⟨hfalse, _, _, _⟩
      · have hall2 : allAgentPairsB st'.agent rest = true := by
          rw [hag]; exact hall.2
        obtain ⟨ls, hl, hc, ha⟩ := ih (i + 1) st' hall2
        refine ⟨ls, ?_, by rw [hc, hcl], by rw [ha, hacn]⟩
        unfold buildLoop
        rw [hs]
        exact hl
      · rw [hag] at hfalse
        simp only at hall hfalse
        rw [hall.1] at hfalse
        simp at hfalse

/-- The loop keeps the agent name a nonempty word-character string. -/
theorem buildLoop_agent_word (ps : List (String × String)) (i : Nat)
    (st ls : LoopSt) (h : buildLoop ps i st = .ok ls)
    (hw : WordStr st.agent) : WordStr ls.agent := by
  rcases buildLoop_agent_cases ps i st ls h with h2 | h2
  · rw [h2]; exact hw
  · rw [h2]; exact klantenservice_word


theorem dictGet_insert_self {α β : Type} [DecidableEq α] (k : α) (v : β) :
    ∀ (d : List (α × β)), dictGet k (dictInsert k v d) = some v := by
  intro d
  induction d with
  | nil => simp [dictInsert, dictGet]
  | cons kv rest ih =>
    obtain ⟨k', v'⟩ := kv
    by_cases h : k' = k
    · subst h; simp [dictInsert, dictGet]
    · simp [dictInsert, dictGet, h, ih]

theorem dictGet_insert_ne {α β : Type} [DecidableEq α] (k k' : α) (v : β)
    (h : k' ≠ k) :
    ∀ (d : List (α × β)), dictGet k (dictInsert k' v d) = dictGet k d := by
  intro d
  induction d with
  | nil => simp [dictInsert, dictGet, h]
  | cons kv rest ih =>
    obtain ⟨k2, v2⟩ := kv
    by_cases h2 : k2 = k'
    · subst h2; simp [dictInsert, dictGet, h]
    · simp only [dictInsert, if_neg h2]
      by_cases h3 : k2 = k
      · simp [dictGet, h3]
      · simp [dictGet, h3, ih]

theorem dictGet_eq_none_of_not_mem {α β : Type} [DecidableEq α] (k : α) :
    ∀ (d : List (α × β)), k ∉ d.map Prod.fst → dictGet k d = none := by
  intro d
  induction d with
  | nil => intro _; rfl
  | cons kv rest ih =>
    intro h
    obtain ⟨k', v'⟩ := kv
    simp only [List.map_cons, List.mem_cons] at h
    push_neg at h
    have hk : ¬ k' = k := fun he => h.1 he.symm
    simp [dictGet, hk, ih h.2]

theorem dictGet_bulkIns_not_mem {α β : Type} [DecidableEq α] (k : α) :
    ∀ (l d : List (α × β)), k ∉ l.map Prod.fst →
    dictGet k (bulkIns d l) = dictGet k d := by
  intro l
  induction l with
  | nil => intro d _; rfl
  | cons kv rest ih =>
    intro d h
    obtain ⟨k', v'⟩ := kv
    simp only [List.map_cons, List.mem_cons] at h
    push_neg at h
    rw [bulkIns_cons, ih _ h.2, dictGet_insert_ne k k' v' (fun he => h.1 he.symm)]

theorem dictGet_bulkIns_mem {α β : Type} [DecidableEq α] (k : α) (v : β) :
    ∀ (l d : List (α × β)), (k, v) ∈ l → (l.map Prod.fst).Nodup →
    dictGet k (bulkIns d l) = some v := by
  intro l
  induction l with
  | nil => intro d h _; simp at h
  | cons kv rest ih =>
    intro d h hnd
    simp only [List.map_cons, List.nodup_cons] at hnd
    rcases List.mem_cons.mp h with rfl | h2
    · rw [bulkIns_cons, dictGet_bulkIns_not_mem k rest _ hnd.1,
        dictGet_insert_self]
    · exact ih _ h2 hnd.2

theorem bulkIns_cons_of_not_mem {α β : Type} [DecidableEq α] (k : α)
    (v : β) : ∀ (l d : List (α × β)), k ∉ l.map Prod.fst →
    bulkIns ((k, v) :: d) l = (k, v) :: bulkIns d l := by
  intro l
  induction l with
  | nil => intro d _; rfl
  | cons kv rest ih =>
    intro d h
    obtain ⟨k', v'⟩ := kv
    simp only [List.map_cons, List.mem_cons] at h
    push_neg at h
    rw [bulkIns_cons, bulkIns_cons]
    simp only [dictInsert, if_neg h.1]
    exact ih _ h.2

/-- Updating an empty dict by key-distinct entries yields those entries. -/
theorem bulkIns_nil_left {α β : Type} [DecidableEq α] :
    ∀ (l : List (α × β)), (l.map Prod.fst).Nodup → bulkIns [] l = l := by
  intro l
  induction l with
  | nil => intro _; rfl
  | cons kv rest ih =>
    intro hnd
    obtain ⟨k, v⟩ := kv
    simp only [List.map_cons, List.nodup_cons] at hnd
    rw [bulkIns_cons]
    simp only [dictInsert]
    rw [bulkIns_cons_of_not_mem k v rest [] hnd.1, ih hnd.2]

theorem dictInsert_mem_nodup {α β : Type} [DecidableEq α] (k : α) (v : β) :
    ∀ (d : List (α × β)), (k, v) ∈ d → (d.map Prod.fst).Nodup →
    dictInsert k v d = d := by
  intro d
  induction d with
  | nil => intro h _; simp at h
  | cons kv rest ih =>
    intro h hnd
    obtain ⟨k', v'⟩ := kv
    simp only [List.map_cons, List.nodup_cons] at hnd
    rcases List.mem_cons.mp h with he | h2
    · injection he with he1 he2
      subst he1; subst he2
      simp [dictInsert]
    · have hk : k' ≠ k := by
        intro he
        subst he
        exact hnd.1 (List.mem_map.mpr ⟨(k', v), h2, rfl⟩)
      simp only [dictInsert, if_neg hk]
      rw [ih h2 hnd.2]

/-- Re-updating a key-distinct dict with its own entries changes
nothing. -/
theorem bulkIns_self {α β : Type} [DecidableEq α] :
    ∀ (l d : List (α × β)), (∀ p ∈ l, p ∈ d) → (d.map Prod.fst).Nodup →
    bulkIns d l = d := by
  intro l
  induction l with
  | nil => intro d _ _; rfl
  | cons kv rest ih =>
    intro d h hnd
    rw [bulkIns_cons, dictInsert_mem_nodup kv.1 kv.2 d (h kv (by simp)) hnd]
    exact ih d (fun p hp => h p (List.mem_cons_of_mem kv hp)) hnd

/-- Characterization of every `chat_dict` entry a pass produces: it comes
from a position whose transcript has an agent, via a successful pair loop
seeded with a well-formed `actual_client_name`. -/
theorem passOf_entry : ∀ (logs : List String) (idx : Nat)
    (acn : Option String), AcnGood acn →
    ∀ p ∈ (passOf logs idx acn).2.1,
      ∃ j t acnj ls c, p.1 = idx + j ∧ logs[j]? = some t ∧
        apply_agent_regex t ≠ "No agent" ∧ AcnGood acnj ∧
        buildLoop (pairsOf t) 0
          { agent := apply_agent_regex t, acn := acnj,
            agents := [], clients := [] } = .ok ls ∧
        ls.acn = some c ∧ p.2 = mkDialogue ls c := by
  intro logs
  induction logs with
  | nil => intro idx acn _ p hp; simp [passOf] at hp
  | cons cl rest ih =>
    intro idx acn hg p hp
    unfold passOf at hp
    by_cases ha : apply_agent_regex cl = "No agent"
    · rw [if_pos ha] at hp
      simp only at hp
      obtain ⟨j, t, acnj, ls, c, h1, h2, h3⟩ := ih (idx + 1) acn hg p hp
      exact ⟨j + 1, t, acnj, ls, c, by omega, by simpa using h2, h3⟩
    · rw [if_neg ha] at hp
      cases hb : buildLoop (pairsOf cl) 0
          { agent := apply_agent_regex cl, acn := acn,
            agents := [], clients := [] } with
      | error e => simp only [hb] at hp; simp at hp
      | ok ls =>
        cases hacn : ls.acn with
        | none => simp only [hb, hacn] at hp; simp at hp
        | some c =>
          simp only [hb, hacn, List.mem_cons] at hp
          rcases hp with rfl | hp2
          · exact ⟨0, cl, acn, ls, c, by omega, by simp, ha, hg, hb,
              hacn, rfl⟩
          · have hgc : AcnGood (some c) := by
              have h4 := buildLoop_acn_good (pairsOf cl) 0 _ ls hb hg
              rw [hacn] at h4
              exact h4
            obtain ⟨j, t, acnj, ls2, c2, h1, h2, h3⟩ :=
              ih (idx + 1) (some c) hgc p hp2
            exact ⟨j + 1, t, acnj, ls2, c2, by omega, by simpa using h2, h3⟩

/-- Every position whose transcript has an agent receives a `chat_dict`
entry in a successful pass, built by the pair loop seeded with the
threaded `actual_client_name`. -/
theorem passOf_pos : ∀ (logs : List String) (idx : Nat)
    (acn : Option String), (passOf logs idx acn).2.2 = .ok () →
    ∀ j t, logs[j]? = some t → apply_agent_regex t ≠ "No agent" →
    ∃ acnj ls c,
      buildLoop (pairsOf t) 0
        { agent := apply_agent_regex t, acn := acnj,
          agents := [], clients := [] } = .ok ls ∧
      ls.acn = some c ∧ (AcnGood acn → AcnGood acnj) ∧
      (idx + j, mkDialogue ls c) ∈ (passOf logs idx acn).2.1 := by
  intro logs
  induction logs with
  | nil => intro idx acn _ j t hj; simp at hj
  | cons cl rest ih =>
    intro idx acn hok j t hj hat
    unfold passOf at hok ⊢
    by_cases ha : apply_agent_regex cl = "No agent"
    · rw [if_pos ha] at hok ⊢
      simp only at hok ⊢
      cases j with
      | zero =>
        simp only [List.getElem?_cons_zero, Option.some.injEq] at hj
        exact absurd (hj ▸ ha) hat
      | succ j2 =>
        simp only [List.getElem?_cons_succ] at hj
        obtain ⟨acnj, ls, c, h1, h2, h3, h4⟩ :=
          ih (idx + 1) acn hok j2 t hj hat
        refine ⟨acnj, ls, c, h1, h2, h3, ?_⟩
        have he : idx + (j2 + 1) = idx + 1 + j2 := by omega
        rw [he]
        exact h4
    · rw [if_neg ha] at hok ⊢
      cases hb : buildLoop (pairsOf cl) 0
          { agent := apply_agent_regex cl, acn := acn,
            agents := [], clients := [] } with
      | error e => simp only [hb] at hok; simp at hok
      | ok ls =>
        cases hacn : ls.acn with
        | none => simp only [hb, hacn] at hok; simp at hok
        | some c =>
          simp only [hb, hacn] at hok ⊢
          cases j with
          | zero =>
            simp only [List.getElem?_cons_zero, Option.some.injEq] at hj
            subst hj
            exact ⟨acn, ls, c, hb, hacn, fun hg => hg, by simp⟩
          | succ j2 =>
            simp only [List.getElem?_cons_succ] at hj
            obtain ⟨acnj, ls2, c2, h1, h2, h3, h4⟩ :=
              ih (idx + 1) (some c) hok j2 t hj hat
            refine ⟨acnj, ls2, c2, h1, h2, ?_, ?_⟩
            · intro hg
              refine h3 ?_
              have h5 := buildLoop_acn_good (pairsOf cl) 0 _ ls hb hg
              rw [hacn] at h5
              exact h5
            · have he : idx + (j2 + 1) = idx + 1 + j2 := by omega
              rw [he]
              exact List.mem_cons_of_mem _ h4

/-- In a successful pass, every transcript without an agent is appended
verbatim to the agent error log. -/
theorem passOf_errs : ∀ (logs : List String) (idx : Nat)
    (acn : Option String), (passOf logs idx acn).2.2 = .ok () →
    ∀ t ∈ logs, apply_agent_regex t = "No agent" →
    t ∈ (passOf logs idx acn).1 := by
  intro logs
  induction logs with
  | nil => intro idx acn _ t ht; simp at ht
  | cons cl rest ih =>
    intro idx acn hok t ht hat
    unfold passOf at hok ⊢
    by_cases ha : apply_agent_regex cl = "No agent"
    · rw [if_pos ha] at hok ⊢
      simp only at hok ⊢
      rcases List.mem_cons.mp ht with rfl | ht2
      · exact List.mem_cons_self _ _
      · exact List.mem_cons_of_mem _ (ih (idx + 1) acn hok t ht2 hat)
    · rw [if_neg ha] at hok ⊢
      cases hb : buildLoop (pairsOf cl) 0
          { agent := apply_agent_regex cl, acn := acn,
            agents := [], clients := [] } with
      | error e => simp only [hb] at hok; simp at hok
      | ok ls =>
        cases hacn : ls.acn with
        | none => simp only [hb, hacn] at hok; simp at hok
        | some c =>
          simp only [hb, hacn] at hok ⊢
          rcases List.mem_cons.mp ht with rfl | ht2
          · exact absurd hat ha
          · exact ih (idx + 1) (some c) hok t ht2 hat

/-- Every `chat_dict` entry key of a pass lies in the processed index
range. -/
theorem passOf_keys_bound : ∀ (logs : List String) (idx : Nat)
    (acn : Option String) (p : Nat × DialogueMap),
    p ∈ (passOf logs idx acn).2.1 → idx ≤ p.1 ∧ p.1 < idx + logs.length := by
  intro logs
  induction logs with
  | nil => intro idx acn p hp; simp [passOf] at hp
  | cons cl rest ih =>
    intro idx acn p hp
    unfold passOf at hp
    by_cases ha : apply_agent_regex cl = "No agent"
    · rw [if_pos ha] at hp
      simp only at hp
      have := ih (idx + 1) acn p hp
      simp only [List.length_cons]
      omega
    · rw [if_neg ha] at hp
      cases hb : buildLoop (pairsOf cl) 0
          { agent := apply_agent_regex cl, acn := acn,
            agents := [], clients := [] } with
      | error e => simp only [hb] at hp; simp at hp
      | ok ls =>
        cases hacn : ls.acn with
        | none => simp only [hb, hacn] at hp; simp at hp
        | some c =>
          simp only [hb, hacn, List.mem_cons] at hp
          rcases hp with rfl | hp2
          · exact ⟨by omega, by change idx < idx + (rest.length + 1); omega⟩
          · have := ih (idx + 1) (some c) p hp2
            simp only [List.length_cons]
            omega

/-- The `chat_dict` entry keys of a pass are pairwise distinct. -/
theorem passOf_keys_nodup : ∀ (logs : List String) (idx : Nat)
    (acn : Option String),
    ((passOf logs idx acn).2.1.map Prod.fst).Nodup := by
  intro logs
  induction logs with
  | nil => intro idx acn; simp [passOf]
  | cons cl rest ih =>
    intro idx acn
    unfold passOf
    by_cases ha : apply_agent_regex cl = "No agent"
    · rw [if_pos ha]
      simp only
      exact ih (idx + 1) acn
    · rw [if_neg ha]
      cases hb : buildLoop (pairsOf cl) 0
          { agent := apply_agent_regex cl, acn := acn,
            agents := [], clients := [] } with
      | error e => simp
      | ok ls =>
        cases hacn : ls.acn with
        | none => simp [hacn]
        | some c =>
          simp only [hacn, List.map_cons, List.nodup_cons]
          refine ⟨?_, ih (idx + 1) (some c)⟩
          intro hmem
          obtain ⟨p, hp, hpe⟩ := List.mem_map.mp hmem
          have := passOf_keys_bound rest (idx + 1) (some c) p hp
          omega

/-- A dialogue whose two keys are `[a, c]` and whose `c` turn list is
empty gets its index appended by the client filter. -/
theorem findPass_mem : ∀ (entries : List (Nat × DialogueMap)) (key : Nat)
    (dm : DialogueMap) (a c : String), (key, dm) ∈ entries →
    (findPass entries).2 = .ok () → dm.map Prod.fst = [a, c] →
    dictGet c dm = some [] → key ∈ (findPass entries).1 := by
  intro entries
  induction entries with
  | nil => intro key dm a c h; simp at h
  | cons kv rest ih =>
    intro key dm a c hmem hok hk hg
    obtain ⟨key', dm'⟩ := kv
    unfold findPass at hok ⊢
    rcases List.mem_cons.mp hmem with he | h2
    · injection he with he1 he2
      subst he1; subst he2
      rw [hk] at hok ⊢
      simp only at hok ⊢
      rw [hg] at hok ⊢
      simp only [reduceIte] at hok ⊢
      exact List.mem_cons_self _ _
    · split at hok
      · rename_i head klt heq
        cases hg' : dictGet klt dm' with
        | none => rw [hg'] at hok; simp at hok
        | some turns =>
          rw [hg'] at hok
          simp only at hok ⊢
          by_cases ht : turns = []
          · simp only [ht, reduceIte] at hok ⊢
            exact List.mem_cons_of_mem _ (ih key dm a c h2 hok hk hg)
          · simp only [ht, reduceIte] at hok ⊢
            exact ih key dm a c h2 hok hk hg
      · simp at hok

/-- Composition of the three methods on a run whose pass and filter both
succeed. -/
theorem return_chatlogs_spec (st : PCState)
    (hp : (passOf st.chatlogs 0 none).2.2 = .ok ())
    (hf : (findPass (bulkIns st.chat_dict
      (passOf st.chatlogs 0 none).2.1)).2 = .ok ()) :
    return_chatlogs st =
      ({ st with
          chat_dict := bulkIns st.chat_dict (passOf st.chatlogs 0 none).2.1,
          agent_error_logs :=
            st.agent_error_logs ++ (passOf st.chatlogs 0 none).1,
          client_error_logs := st.client_error_logs ++
            (findPass (bulkIns st.chat_dict
              (passOf st.chatlogs 0 none).2.1)).1 },
        .ok ((bulkIns st.chat_dict (passOf st.chatlogs 0 none).2.1).filter
          (fun kv => ¬ kv.1 ∈ st.client_error_logs ++
            (findPass (bulkIns st.chat_dict
              (passOf st.chatlogs 0 none).2.1)).1))) := by
  unfold return_chatlogs find_chatlogs_without_client acquire_dialogue
  rw [acquireGo_eq_pass]
  simp only [hp]
  rw [findGo_eq_pass]
  simp only [hf]

/-- Composition of the three methods on a run whose pass raises: the
exception propagates and `client_error_logs` is untouched. -/
theorem return_chatlogs_spec_err (st : PCState) (e : PyErr)
    (hp : (passOf st.chatlogs 0 none).2.2 = .error e) :
    return_chatlogs st =
      ({ st with
          chat_dict := bulkIns st.chat_dict (passOf st.chatlogs 0 none).2.1,
          agent_error_logs :=
            st.agent_error_logs ++ (passOf st.chatlogs 0 none).1 },
        .error e) := by
  unfold return_chatlogs find_chatlogs_without_client acquire_dialogue
  rw [acquireGo_eq_pass]
  simp only [hp]

/-- Specification of `acquire_dialogue` on a successful pass. -/
theorem acquire_dialogue_spec (st : PCState)
    (hp : (passOf st.chatlogs 0 none).2.2 = .ok ()) :
    acquire_dialogue st =
      ({ st with
          chat_dict := bulkIns st.chat_dict (passOf st.chatlogs 0 none).2.1,
          agent_error_logs :=
            st.agent_error_logs ++ (passOf st.chatlogs 0 none).1 },
        .ok (bulkIns st.chat_dict (passOf st.chatlogs 0 none).2.1)) := by
  unfold acquire_dialogue
  rw [acquireGo_eq_pass]
  simp only [hp]

/-- Specification of `acquire_dialogue` on a failing pass: the exception
propagates. -/
theorem acquire_dialogue_spec_err (st : PCState) (e : PyErr)
    (hp : (passOf st.chatlogs 0 none).2.2 = .error e) :
    acquire_dialogue st =
      ({ st with
          chat_dict := bulkIns st.chat_dict (passOf st.chatlogs 0 none).2.1,
          agent_error_logs :=
            st.agent_error_logs ++ (passOf st.chatlogs 0 none).1 },
        .error e) := by
  unfold acquire_dialogue
  rw [acquireGo_eq_pass]
  simp only [hp]

/-- A transcript with an agent but a paired span without a client-name
match makes the pass raise (with this or an earlier exception). -/
theorem passOf_err_of_bad : ∀ (logs : List String) (idx : Nat)
    (acn : Option String),
    (∃ t ∈ logs, apply_agent_regex t ≠ "No agent" ∧
      ∃ p ∈ pairsOf t, clientNameOf p.1.data = none) →
    ∃ e, (passOf logs idx acn).2.2 = .error e := by
  intro logs
  induction logs with
  | nil => intro idx acn hex; simp at hex
  | cons cl rest ih =>
    intro idx acn hex
    unfold passOf
    by_cases ha : apply_agent_regex cl = "No agent"
    · rw [if_pos ha]
      simp only
      refine ih (idx + 1) acn ?_
      rcases hex with ⟨t, ht, hta, htp⟩
      rcases List.mem_cons.mp ht with rfl | ht2
      · exact absurd ha hta
      · exact ⟨t, ht2, hta, htp⟩
    · rw [if_neg ha]
      cases hb : buildLoop (pairsOf cl) 0
          { agent := apply_agent_regex cl, acn := acn,
            agents := [], clients := [] } with
      | error e => exact ⟨e, rfl⟩
      | ok ls =>
        cases hacn : ls.acn with
        | none => exact ⟨.nameError, by simp [hacn]⟩
        | some c =>
          simp only [hacn]
          refine ih (idx + 1) (some c) ?_
          rcases hex with ⟨t, ht, hta, htp⟩
          rcases List.mem_cons.mp ht with rfl | ht2
          · rw [buildLoop_err_of_bad (pairsOf t) 0 _ htp] at hb
            cases hb
          · exact ⟨t, ht2, hta, htp⟩

/-- C1: on the spec's example transcript the code's tokenizer finds no
timestamp tokens and the extractor finds no text spans (both patterns
demand a space directly after `(` and before `)`, and the timestamp
pattern carries the stray `\(?d{0,2}` of a missing backslash — the
docstring's own example `(1m 30s)` does not match either), so instead of
the described corpus entry `{Jan: [hallo], Klant: [hoi]}` the pipeline
raises `NameError` (`actual_client_name` is never bound) and returns
nothing. -/
theorem c1_example_transcript_behavior :
    apply_timestamp_regex
        "Agent Jan zei: (0s 10s) Klant: hoi (10s 20s) Jan: hallo" = [] ∧
    apply_chat_sentence_regex
        "Agent Jan zei: (0s 10s) Klant: hoi (10s 20s) Jan: hallo" = [] ∧
    apply_agent_regex
        "Agent Jan zei: (0s 10s) Klant: hoi (10s 20s) Jan: hallo" = "Jan" ∧
    return_chatlogs (initPC
        ["Agent Jan zei: (0s 10s) Klant: hoi (10s 20s) Jan: hallo"]) =
      (initPC ["Agent Jan zei: (0s 10s) Klant: hoi (10s 20s) Jan: hallo"],
        .error .nameError) :=
  ⟨rfl, rfl, rfl, rfl⟩

/-- C5: whenever some transcript has an agent and a paired span with no
"name: " prefix (no `:` followed by whitespace), dialogue building
propagates a hard failure out of `acquire_dialogue` instead of skipping
the span. -/
theorem c5_malformed_span_raises (cls : List String)
    (h : ∃ t ∈ cls, apply_agent_regex t ≠ "No agent" ∧
      ∃ p ∈ pairsOf t, clientNameOf p.1.data = none) :
    ∃ e, (acquire_dialogue (initPC cls)).2 = .error e := by
  obtain ⟨e, he⟩ := passOf_err_of_bad cls 0 none h
  exact ⟨e, by rw [acquire_dialogue_spec_err (initPC cls) e he]⟩

/-- Witness for C5, on a transcript whose single paired span `nocolon `
has no client-name prefix. -/
theorem c5_witness :
    ∃ e, (acquire_dialogue
      (initPC ["Agent Jan ( 10s ) nocolon ( 20s )"])).2 = .error e :=
  c5_malformed_span_raises ["Agent Jan ( 10s ) nocolon ( 20s )"]
    ⟨"Agent Jan ( 10s ) nocolon ( 20s )", by decide, by decide,
      ("nocolon ", "( 10s )"), by decide, by decide⟩

/-- C4: in a run of `acquire_dialogue` that returns, every transcript in
which agent extraction finds no `Agent <name>` match is appended verbatim
to `agent_error_logs`, and no `chat_dict` entry is ever created for its
index. -/
theorem c4_no_agent_diverted (cls : List String) (st' : PCState)
    (d : List (Nat × DialogueMap))
    (hok : acquire_dialogue (initPC cls) = (st', .ok d))
    (j : Nat) (t : String) (hj : cls[j]? = some t)
    (hna : findAgentName t.data = none) :
    t ∈ st'.agent_error_logs ∧ dictGet j st'.chat_dict = none := by
  have hsent : apply_agent_regex t = "No agent" := by
    unfold apply_agent_regex
    rw [hna]
  cases hres : (passOf cls 0 none).2.2 with
  | error e =>
    rw [acquire_dialogue_spec_err (initPC cls) e hres] at hok
    simp [initPC] at hok
  | ok u =>
    rw [acquire_dialogue_spec (initPC cls) hres] at hok
    injection hok with hok1 hok2
    subst hok1
    constructor
    · simp only [initPC, List.nil_append]
      exact passOf_errs cls 0 none hres t
        (List.getElem?_mem hj) hsent
    · simp only [initPC]
      rw [dictGet_bulkIns_not_mem]
      · rfl
      · intro hmem
        obtain ⟨p, hp, hpe⟩ := List.mem_map.mp hmem
        obtain ⟨j2, t2, acnj, ls, c, h1, h2, h3, _⟩ :=
          passOf_entry cls 0 none (fun v hv => by cases hv) p hp
        have : j2 = j := by omega
        subst this
        rw [hj] at h2
        injection h2 with h2
        subst h2
        exact h3 hsent

/-- Witness for C4: a run with one agent-less transcript and one normal
transcript; the agent-less one is logged and index 0 has no entry. -/
theorem c4_witness :
    "geen agent hier" ∈
      PCState.agent_error_logs (acquire_dialogue (initPC
        ["geen agent hier", "Agent Jan ( 10s ) Klant: hoi"])).1 ∧
    dictGet 0 (PCState.chat_dict (acquire_dialogue (initPC
      ["geen agent hier", "Agent Jan ( 10s ) Klant: hoi"])).1)
      = none := by
  obtain ⟨h1, h2⟩ := c4_no_agent_diverted
    ["geen agent hier", "Agent Jan ( 10s ) Klant: hoi"]
    ((acquire_dialogue (initPC
      ["geen agent hier", "Agent Jan ( 10s ) Klant: hoi"])).1)
    [(1, [("Jan", []), ("Klant: ", [(0, "hoi", "( 10s )")])])]
    rfl 0 "geen agent hier" rfl rfl
  exact ⟨h1, h2⟩

/-- A pair loop that adds no client turn leaves `actual_client_name`
untouched. -/
theorem buildLoop_no_client_same_acn (ps : List (String × String))
    (i : Nat) (st ls : LoopSt) (h : buildLoop ps i st = .ok ls)
    (hcl : ls.clients = st.clients) : ls.acn = st.acn := by
  obtain ⟨ex, hex, hexa⟩ := buildLoop_clients_extend ps i st ls h
  have hex0 : ex = [] := by
    have h3 := congrArg List.length hex
    rw [hcl, List.length_append] at h3
    have h4 : ex.length = 0 := by omega
    exact List.length_eq_zero.mp h4
  exact hexa hex0

/-- C10: `actual_client_name` is function-scoped in `acquire_dialogue`,
never re-initialized per transcript.  (i) A pair loop that adds no client
turn leaves it untouched, so (ii) a transcript whose paired spans are all
classified as agent turns gets, as the client key of its dialogue, the
label recorded while processing an earlier transcript, and (iii) when no
earlier transcript ever recorded one, processing raises `NameError`
instead of returning. -/
theorem c10_stale_client_label :
    (∀ (ps : List (String × String)) (i : Nat) (st ls : LoopSt),
      buildLoop ps i st = .ok ls → ls.clients = st.clients →
      ls.acn = st.acn) ∧
    (∀ (cl : String) (rest : List String) (idx : Nat) (st : PCState)
      (ls : LoopSt) (c : String),
      apply_agent_regex cl ≠ "No agent" →
      buildLoop (pairsOf cl) 0
        { agent := apply_agent_regex cl, acn := some c,
          agents := [], clients := [] } = .ok ls →
      ls.clients = [] →
      acquireGo (cl :: rest) idx (some c) st =
        acquireGo rest (idx + 1) (some c)
          { st with chat_dict :=
              dictInsert idx (mkDialogue ls c) st.chat_dict } ∧
      dictGet c (mkDialogue ls c) = some []) ∧
    (∀ (cl : String) (rest : List String) (idx : Nat) (st : PCState)
      (ls : LoopSt),
      apply_agent_regex cl ≠ "No agent" →
      buildLoop (pairsOf cl) 0
        { agent := apply_agent_regex cl, acn := none,
          agents := [], clients := [] } = .ok ls →
      ls.clients = [] →
      acquireGo (cl :: rest) idx none st = (st, .error .nameError)) := by
  refine ⟨buildLoop_no_client_same_acn, ?_, ?_⟩
  · intro cl rest idx st ls c hag hb hcl
    have hacn : ls.acn = some c :=
      buildLoop_no_client_same_acn (pairsOf cl) 0 _ ls hb hcl
    constructor
    · conv_lhs => unfold acquireGo
      rw [if_neg hag, hb]
      simp only [hacn]
    · unfold mkDialogue
      rw [hcl]
      exact dictGet_insert_self c [] _
  · intro cl rest idx st ls hag hb hcl
    have hacn : ls.acn = none :=
      buildLoop_no_client_same_acn (pairsOf cl) 0 _ ls hb hcl
    conv_lhs => unfold acquireGo
    rw [if_neg hag, hb]
    simp only [hacn]

/-- Witness for C10 on the monologue transcript
`Agent Piet ( 10s ) Piet: dag`: with a label from an earlier transcript
it becomes the client key; as first transcript the loop raises
`NameError`. -/
theorem c10_witness :
    ((buildLoop (pairsOf "Agent Piet ( 10s ) Piet: dag") 0
        { agent := "Piet", acn := some "Klant: ",
          agents := [], clients := [] } =
      .ok { agent := "Piet", acn := some "Klant: ",
            agents := [(0, "dag", "( 10s )")], clients := [] }) ∧
      LoopSt.acn { agent := "Piet", acn := some "Klant: ",
                   agents := [(0, "dag", "( 10s )")], clients := [] } =
        some "Klant: ") ∧
    (acquireGo ["Agent Piet ( 10s ) Piet: dag"] 1 (some "Klant: ")
        (initPC []) =
      acquireGo [] 2 (some "Klant: ")
        { (initPC []) with
            chat_dict := dictInsert 1 (mkDialogue
              { agent := "Piet", acn := some "Klant: ",
                agents := [(0, "dag", "( 10s )")], clients := [] }
              "Klant: ") [] } ∧
      dictGet "Klant: " (mkDialogue
        { agent := "Piet", acn := some "Klant: ",
          agents := [(0, "dag", "( 10s )")], clients := [] }
        "Klant: ") = some []) ∧
    acquireGo ["Agent Piet ( 10s ) Piet: dag"] 0 none
        (initPC ["Agent Piet ( 10s ) Piet: dag"]) =
      (initPC ["Agent Piet ( 10s ) Piet: dag"], .error .nameError) := by
  refine ⟨⟨rfl, c10_stale_client_label.1 (pairsOf
    "Agent Piet ( 10s ) Piet: dag") 0
    { agent := "Piet", acn := some "Klant: ", agents := [], clients := [] }
    { agent := "Piet", acn := some "Klant: ",
      agents := [(0, "dag", "( 10s )")], clients := [] } rfl rfl⟩, ?_, ?_⟩
  · exact c10_stale_client_label.2.1 "Agent Piet ( 10s ) Piet: dag" []
      1 (initPC []) _ "Klant: " (by decide) rfl rfl
  · exact c10_stale_client_label.2.2 "Agent Piet ( 10s ) Piet: dag" []
      0 (initPC ["Agent Piet ( 10s ) Piet: dag"]) _ (by decide) rfl rfl

/-- C7: the alias law.  First conjunct: from a pair whose client-name
prefix is the reserved service label onward, the loop behaves exactly as
if the agent name were `Klantenservice` — every subsequent agent-prefix
check uses the reserved label, not the originally extracted name.  Second
conjunct: a completed loop that saw such a pair finishes with agent name
`Klantenservice`, which becomes the dialogue's agent key (first key of
the dict built on lines 141-143). -/
theorem c7_alias_law :
    (∀ (p : String × String) (l2 : List (String × String)) (i : Nat)
      (st : LoopSt),
      clientNameOf p.1.data = some "Klantenservice: ".data →
      buildLoop (p :: l2) i st =
        buildLoop (p :: l2) i { st with agent := "Klantenservice" }) ∧
    (∀ (ps : List (String × String)) (i : Nat) (st ls : LoopSt),
      buildLoop ps i st = .ok ls →
      (∃ p ∈ ps, clientNameOf p.1.data = some "Klantenservice: ".data) →
      ls.agent = "Klantenservice" ∧
      ∀ c, ((mkDialogue ls c).map Prod.fst).head? =
        some "Klantenservice") := by
  constructor
  · intro p l2 i st hcn
    obtain ⟨s, ts⟩ := p
    simp only at hcn
    have hstep : stepOf (s, ts) i st =
        stepOf (s, ts) i { st with agent := "Klantenservice" } := by
      unfold stepOf
      simp only
      rw [hcn]
      simp
    unfold buildLoop
    rw [hstep]
  · intro ps i st ls h hex
    have hag := buildLoop_alias ps i st ls h hex
    refine ⟨hag, ?_⟩
    intro c
    unfold mkDialogue
    rw [hag]
    simp only [dictInsert]
    by_cases hc : "Klantenservice" = c
    · simp [hc]
    · simp [hc]

/-- Composition of the three methods when the pass succeeds but the
client filter raises. -/
theorem return_chatlogs_spec_errfind (st : PCState) (e : PyErr)
    (hp : (passOf st.chatlogs 0 none).2.2 = .ok ())
    (hf : (findPass (bulkIns st.chat_dict
      (passOf st.chatlogs 0 none).2.1)).2 = .error e) :
    return_chatlogs st =
      ({ st with
          chat_dict := bulkIns st.chat_dict (passOf st.chatlogs 0 none).2.1,
          agent_error_logs :=
            st.agent_error_logs ++ (passOf st.chatlogs 0 none).1,
          client_error_logs := st.client_error_logs ++
            (findPass (bulkIns st.chat_dict
              (passOf st.chatlogs 0 none).2.1)).1 },
        .error e) := by
  unfold return_chatlogs find_chatlogs_without_client acquire_dialogue
  rw [acquireGo_eq_pass]
  simp only [hp]
  rw [findGo_eq_pass]
  simp only [hf]

/-- C3 fails on the code: a second `return_chatlogs` call re-appends the
same entries to the error logs, so their contents differ from a single
call (here `agent_error_logs` doubles). -/
theorem c3_counterexample :
    (return_chatlogs (initPC ["geen agent hier"])).1.agent_error_logs =
      ["geen agent hier"] ∧
    PCState.agent_error_logs (return_chatlogs
        ((return_chatlogs (initPC ["geen agent hier"])).1)).1 =
      ["geen agent hier", "geen agent hier"] ∧
    (["geen agent hier"] : List String) ≠
      ["geen agent hier", "geen agent hier"] :=
  ⟨rfl, rfl, by decide⟩

/-- C3 amended: a second `return_chatlogs` call over the same transcript
list returns the same Corpus and leaves `chat_dict` unchanged, but each
error log receives the same entries again, ending with its first-call
contents duplicated rather than unchanged. -/
theorem c3_amended (cls : List String) (s1 : PCState)
    (c1 : List (Nat × DialogueMap))
    (h1 : return_chatlogs (initPC cls) = (s1, .ok c1)) :
    return_chatlogs s1 =
      ({ s1 with
          agent_error_logs := s1.agent_error_logs ++ s1.agent_error_logs,
          client_error_logs :=
            s1.client_error_logs ++ s1.client_error_logs },
        .ok c1) := by
  cases hres : (passOf cls 0 none).2.2 with
  | error e =>
    rw [return_chatlogs_spec_err (initPC cls) e hres] at h1
    simp at h1
  | ok u =>
    obtain ⟨⟩ := u
    cases hfr : (findPass (bulkIns (initPC cls).chat_dict
        (passOf (initPC cls).chatlogs 0 none).2.1)).2 with
    | error e =>
      rw [return_chatlogs_spec_errfind (initPC cls) e hres hfr] at h1
      simp at h1
    | ok u2 =>
      obtain ⟨⟩ := u2
      rw [return_chatlogs_spec (initPC cls) hres hfr] at h1
      injection h1 with h1a h1b
      injection h1b with h1b
      subst h1a
      subst h1b
      have hnd := passOf_keys_nodup cls 0 none
      have hD : bulkIns (bulkIns [] (passOf cls 0 none).2.1)
          (passOf cls 0 none).2.1 =
          bulkIns [] (passOf cls 0 none).2.1 := by
        rw [bulkIns_nil_left _ hnd]
        exact bulkIns_self _ _ (fun p hp => hp) hnd
      simp only [initPC, List.nil_append] at hfr ⊢
      have hf2 : (findPass (bulkIns
          (bulkIns [] (passOf cls 0 none).2.1)
          (passOf cls 0 none).2.1)).2 = .ok () := by
        rw [hD]
        exact hfr
      rw [return_chatlogs_spec _ hres hf2]
      simp only [hD, Prod.mk.injEq, Except.ok.injEq]
      constructor
      · trivial
      · refine List.filter_congr ?_
        intro kv _
        refine decide_eq_decide.mpr ?_
        simp [List.mem_append]

/-- Witness for the amended C3 on a three-transcript run exercising the
Corpus, both error logs and the filter. -/
theorem c3_amended_witness :
    return_chatlogs
      { chatlogs := ["Agent Jan ( 10s ) Klant: hoi",
          "Agent Piet ( 10s ) Piet: dag", "geen agent"],
        chat_dict := [(0, [("Jan", []),
            ("Klant: ", [(0, "hoi", "( 10s )")])]),
          (1, [("Piet", [(0, "dag", "( 10s )")]), ("Klant: ", [])])],
        agent_error_logs := ["geen agent"],
        client_error_logs := [1] } =
      ({ chatlogs := ["Agent Jan ( 10s ) Klant: hoi",
           "Agent Piet ( 10s ) Piet: dag", "geen agent"],
         chat_dict := [(0, [("Jan", []),
             ("Klant: ", [(0, "hoi", "( 10s )")])]),
           (1, [("Piet", [(0, "dag", "( 10s )")]), ("Klant: ", [])])],
         agent_error_logs := ["geen agent", "geen agent"],
         client_error_logs := [1, 1] },
      .ok [(0, [("Jan", []), ("Klant: ", [(0, "hoi", "( 10s )")])])]) :=
  c3_amended
    ["Agent Jan ( 10s ) Klant: hoi", "Agent Piet ( 10s ) Piet: dag",
      "geen agent"]
    { chatlogs := ["Agent Jan ( 10s ) Klant: hoi",
        "Agent Piet ( 10s ) Piet: dag", "geen agent"],
      chat_dict := [(0, [("Jan", []),
          ("Klant: ", [(0, "hoi", "( 10s )")])]),
        (1, [("Piet", [(0, "dag", "( 10s )")]), ("Klant: ", [])])],
      agent_error_logs := ["geen agent"],
      client_error_logs := [1] }
    [(0, [("Jan", []), ("Klant: ", [(0, "hoi", "( 10s )")])])]
    rfl

/-- C2 fails on the code: in the retained entry for this transcript the
alias span is counted as an agent turn, so the two turn lists hold
1 + 1 = 2 turns while the claim demands `pairs − alias = 2 − 1 = 1`. -/
theorem c2_counterexample :
    (return_chatlogs (initPC
      ["Agent Jan ( 10s ) Klantenservice: goedendag ( 20s ) Klant: hoi"])).2
      = .ok [(0, [("Klantenservice", [(0, "goedendag ", "( 10s )")]),
          ("Klant: ", [(1, "hoi", "( 20s )")])])] ∧
    List.length (pairsOf
      "Agent Jan ( 10s ) Klantenservice: goedendag ( 20s ) Klant: hoi")
      = 2 ∧
    countAliasPairs
      "Agent Jan ( 10s ) Klantenservice: goedendag ( 20s ) Klant: hoi"
      = 1 ∧
    (1 + 1 : Nat) ≠ 2 - 1 :=
  ⟨rfl, rfl, rfl, by decide⟩

/-- C2 amended: every retained Corpus entry is a two-key dialogue (agent
key distinct from client key) whose turn lists together hold exactly one
turn per paired (span, timestamp) entry processed — alias spans are
counted as agent turns, not subtracted. -/
theorem c2_amended (cls : List String) (s1 : PCState)
    (corpus : List (Nat × DialogueMap))
    (hok : return_chatlogs (initPC cls) = (s1, .ok corpus))
    (i : Nat) (dm : DialogueMap) (hmem : (i, dm) ∈ corpus) :
    ∃ t a ta c tc, cls[i]? = some t ∧ dm = [(a, ta), (c, tc)] ∧ a ≠ c ∧
      ta.length + tc.length = (pairsOf t).length := by
  cases hres : (passOf cls 0 none).2.2 with
  | error e =>
    rw [return_chatlogs_spec_err (initPC cls) e hres] at hok
    simp at hok
  | ok u =>
    obtain ⟨⟩ := u
    cases hfr : (findPass (bulkIns (initPC cls).chat_dict
        (passOf (initPC cls).chatlogs 0 none).2.1)).2 with
    | error e =>
      rw [return_chatlogs_spec_errfind (initPC cls) e hres hfr] at hok
      simp at hok
    | ok u2 =>
      obtain ⟨⟩ := u2
      rw [return_chatlogs_spec (initPC cls) hres hfr] at hok
      injection hok with hok1 hok2
      injection hok2 with hok2
      subst hok2
      have hmem2 : (i, dm) ∈ bulkIns (initPC cls).chat_dict
          (passOf (initPC cls).chatlogs 0 none).2.1 :=
        (List.mem_filter.mp hmem).1
      rw [show (initPC cls).chat_dict = ([] : List (Nat × DialogueMap))
        from rfl] at hmem2
      rw [bulkIns_nil_left _ (passOf_keys_nodup
        (initPC cls).chatlogs 0 none)] at hmem2
      obtain ⟨j, t, acnj, ls, c, h1, h2, h3, h4, h5, h6, h7⟩ :=
        passOf_entry (initPC cls).chatlogs 0 none
          (fun v hv => by cases hv) (i, dm) hmem2
      simp only at h1 h7
      have hji : j = i := by omega
      subst hji
      have hword : WordStr ls.agent :=
        buildLoop_agent_word (pairsOf t) 0 _ ls h5 (apply_agent_word t h3)
      have hgood : AcnGood ls.acn :=
        buildLoop_acn_good (pairsOf t) 0 _ ls h5 h4
      have hends : EndsSpace c := hgood c h6
      have hne : ls.agent ≠ c := wordStr_ne_endsSpace _ _ hword hends
      have hcount := buildLoop_counts (pairsOf t) 0 _ ls h5
      simp only [List.length_nil] at hcount
      refine ⟨t, ls.agent, ls.agents, c, ls.clients, h2, ?_, hne, ?_⟩
      · rw [h7]
        exact mkDialogue_eq ls c hne
      · omega

/-- Witness for the amended C2 on the alias-span transcript: the two-key
dialogue holds 1 + 1 = 2 turns for 2 processed pairs. -/
theorem c2_amended_witness :
    ∃ t a ta c tc,
      (["Agent Jan ( 10s ) Klantenservice: goedendag ( 20s ) Klant: hoi"]
        : List String)[0]? = some t ∧
      ([("Klantenservice", [(0, "goedendag ", "( 10s )")]),
        ("Klant: ", [(1, "hoi", "( 20s )")])] : DialogueMap) =
        [(a, ta), (c, tc)] ∧
      a ≠ c ∧ ta.length + tc.length = (pairsOf t).length :=
  c2_amended
    ["Agent Jan ( 10s ) Klantenservice: goedendag ( 20s ) Klant: hoi"]
    { chatlogs :=
        ["Agent Jan ( 10s ) Klantenservice: goedendag ( 20s ) Klant: hoi"],
      chat_dict := [(0, [("Klantenservice",
          [(0, "goedendag ", "( 10s )")]),
        ("Klant: ", [(1, "hoi", "( 20s )")])])],
      agent_error_logs := [],
      client_error_logs := [] }
    [(0, [("Klantenservice", [(0, "goedendag ", "( 10s )")]),
      ("Klant: ", [(1, "hoi", "( 20s )")])])]
    rfl 0
    [("Klantenservice", [(0, "goedendag ", "( 10s )")]),
      ("Klant: ", [(1, "hoi", "( 20s )")])]
    (List.mem_singleton.mpr rfl)

/-- C8 fails on the code for a monologue with no earlier client label:
`sentence_dict[actual_client_name]` raises `NameError`, so the index is
never appended to `client_error_logs` (still `[]` in the untouched
state) and no Corpus is returned at all. -/
theorem c8_counterexample :
    apply_agent_regex "Agent Jan ( 10s ) Jan: hallo" = "Jan" ∧
    allAgentPairsB "Jan" (pairsOf "Agent Jan ( 10s ) Jan: hallo")
      = true ∧
    return_chatlogs (initPC ["Agent Jan ( 10s ) Jan: hallo"]) =
      (initPC ["Agent Jan ( 10s ) Jan: hallo"], .error .nameError) :=
  ⟨rfl, rfl, rfl⟩

/-- C8 amended: in a run that returns a Corpus, every transcript whose
agent is found and whose paired spans are all classified as agent turns
(a monologue) yields a dialogue whose client turn list is empty, has its
index appended to `client_error_logs`, and is excluded from the returned
Corpus.  (When no earlier transcript recorded a client label the run
instead raises `NameError`, as the counterexample shows.) -/
theorem c8_amended (cls : List String) (s1 : PCState)
    (corpus : List (Nat × DialogueMap))
    (hok : return_chatlogs (initPC cls) = (s1, .ok corpus))
    (j : Nat) (t : String) (hj : cls[j]? = some t)
    (hag : apply_agent_regex t ≠ "No agent")
    (hmono : allAgentPairsB (apply_agent_regex t) (pairsOf t) = true) :
    ∃ dm a c, dictGet j s1.chat_dict = some dm ∧
      dm.map Prod.fst = [a, c] ∧ dictGet c dm = some [] ∧
      j ∈ s1.client_error_logs ∧ dictGet j corpus = none := by
  cases hres : (passOf cls 0 none).2.2 with
  | error e =>
    rw [return_chatlogs_spec_err (initPC cls) e hres] at hok
    simp at hok
  | ok u =>
    obtain ⟨⟩ := u
    cases hfr : (findPass (bulkIns (initPC cls).chat_dict
        (passOf (initPC cls).chatlogs 0 none).2.1)).2 with
    | error e =>
      rw [return_chatlogs_spec_errfind (initPC cls) e hres hfr] at hok
      simp at hok
    | ok u2 =>
      obtain ⟨⟩ := u2
      rw [return_chatlogs_spec (initPC cls) hres hfr] at hok
      injection hok with hok1 hok2
      injection hok2 with hok2
      subst hok1
      subst hok2
      obtain ⟨acnj, ls, c0, h5, h6, h7, hmemCD⟩ :=
        passOf_pos (initPC cls).chatlogs 0 none hres j t hj hag
      obtain ⟨ls2, hl2, hcl2, hacn2⟩ :=
        allAgentPairsB_loop (pairsOf t) 0
          { agent := apply_agent_regex t, acn := acnj,
            agents := [], clients := [] } hmono
      rw [h5] at hl2
      injection hl2 with hl2
      subst hl2
      have hcl : ls.clients = [] := hcl2
      have hacnj : acnj = some c0 := by
        rw [h6] at hacn2
        exact hacn2.symm
      have hgood : AcnGood acnj := h7 (fun v hv => by cases hv)
      have hends : EndsSpace c0 := hgood c0 hacnj
      have hword : WordStr ls.agent :=
        buildLoop_agent_word (pairsOf t) 0 _ ls h5 (apply_agent_word t hag)
      have hne : ls.agent ≠ c0 := wordStr_ne_endsSpace _ _ hword hends
      have hkeys : (mkDialogue ls c0).map Prod.fst = [ls.agent, c0] := by
        rw [mkDialogue_eq ls c0 hne]
        rfl
      have hgetc : dictGet c0 (mkDialogue ls c0) = some [] := by
        unfold mkDialogue
        rw [hcl]
        exact dictGet_insert_self c0 [] _
      have hmemD : (j, mkDialogue ls c0) ∈ bulkIns (initPC cls).chat_dict
          (passOf (initPC cls).chatlogs 0 none).2.1 := by
        rw [show (initPC cls).chat_dict = ([] : List (Nat × DialogueMap))
          from rfl]
        rw [bulkIns_nil_left _ (passOf_keys_nodup
          (initPC cls).chatlogs 0 none)]
        simpa using hmemCD
      have hmemF : j ∈ (findPass (bulkIns (initPC cls).chat_dict
          (passOf (initPC cls).chatlogs 0 none).2.1)).1 :=
        findPass_mem _ j (mkDialogue ls c0) ls.agent c0 hmemD hfr
          hkeys hgetc
      refine ⟨mkDialogue ls c0, ls.agent, c0, ?_, hkeys, hgetc, ?_, ?_⟩
      · simp only [initPC]
        rw [show bulkIns ([] : List (Nat × DialogueMap)) = bulkIns []
          from rfl]
        refine dictGet_bulkIns_mem j (mkDialogue ls c0) _ [] ?_
          (passOf_keys_nodup cls 0 none)
        simpa using hmemCD
      · simp only [initPC, List.nil_append]
        simpa [initPC] using hmemF
      · refine dictGet_eq_none_of_not_mem j _ ?_
        intro hmem3
        obtain ⟨kv, hkv, hkve⟩ := List.mem_map.mp hmem3
        have hpred := (List.mem_filter.mp hkv).2
        rw [hkve] at hpred
        have := of_decide_eq_true hpred
        exact this (List.mem_append_right _ hmemF)

/-- Witness for the amended C8: a client transcript followed by the
`Piet` monologue; index 1 is logged and excluded. -/
theorem c8_amended_witness :
    ∃ dm a c,
      dictGet 1 (PCState.chat_dict
        (return_chatlogs (initPC ["Agent Jan ( 10s ) Klant: hoi",
          "Agent Piet ( 10s ) Piet: dag"])).1) = some dm ∧
      dm.map Prod.fst = [a, c] ∧ dictGet c dm = some [] ∧
      1 ∈ PCState.client_error_logs
        (return_chatlogs (initPC ["Agent Jan ( 10s ) Klant: hoi",
          "Agent Piet ( 10s ) Piet: dag"])).1 ∧
      dictGet 1 [(0, [("Jan", ([] : List Turn)),
        ("Klant: ", [(0, "hoi", "( 10s )")])])] = none := by
  refine c8_amended
    ["Agent Jan ( 10s ) Klant: hoi", "Agent Piet ( 10s ) Piet: dag"]
    ((return_chatlogs (initPC ["Agent Jan ( 10s ) Klant: hoi",
      "Agent Piet ( 10s ) Piet: dag"])).1)
    [(0, [("Jan", []), ("Klant: ", [(0, "hoi", "( 10s )")])])]
    rfl 1 "Agent Piet ( 10s ) Piet: dag" rfl (by decide) rfl

/-- Witness for C7 on the alias-span transcript. -/
theorem c7_witness :
    (buildLoop [("Klantenservice: goedendag ", "( 10s )")] 0
        { agent := "Jan", acn := none, agents := [], clients := [] } =
      buildLoop [("Klantenservice: goedendag ", "( 10s )")] 0
        { agent := "Klantenservice", acn := none,
          agents := [], clients := [] }) ∧
    (LoopSt.agent
        { agent := "Klantenservice", acn := some "Klant: ",
          agents := [(0, "goedendag ", "( 10s )")],
          clients := [(1, "hoi", "( 20s )")] } = "Klantenservice" ∧
      ∀ c, ((mkDialogue
          { agent := "Klantenservice", acn := some "Klant: ",
            agents := [(0, "goedendag ", "( 10s )")],
            clients := [(1, "hoi", "( 20s )")] } c).map
        Prod.fst).head? = some "Klantenservice") := by
  constructor
  · exact c7_alias_law.1 ("Klantenservice: goedendag ", "( 10s )") [] 0
      { agent := "Jan", acn := none, agents := [], clients := [] }
      (by decide)
  · exact c7_alias_law.2 (pairsOf
      "Agent Jan ( 10s ) Klantenservice: goedendag ( 20s ) Klant: hoi")
      0 { agent := "Jan", acn := none, agents := [], clients := [] }
      { agent := "Klantenservice", acn := some "Klant: ",
        agents := [(0, "goedendag ", "( 10s )")],
        clients := [(1, "hoi", "( 20s )")] }
      rfl
      ⟨("Klantenservice: goedendag ", "( 10s )"), by decide, by decide⟩

theorem q_orElse {α : Type} {Q : Option α → Prop} (x y : Option α)
    (hx : Q x) (hy : Q y) : Q (x <|> y) := by
  cases x with
  | none => simpa using hy
  | some v => simpa using hx

theorem getCap_setCap_ne (g n : Nat) (hne : n ≠ g) (v : List Char)
    (c : Caps) : getCap g (setCap n v c) = getCap g c := by
  unfold getCap setCap
  by_cases h1 : n = 1 <;> by_cases h2 : n = 2 <;>
    by_cases h3 : g = 1 <;> by_cases h4 : g = 2 <;>
    simp_all

/-- Capture-frame property of the matcher: a pattern containing no group
`g` can only invoke its continuation with the `g` capture slot
unchanged. -/
theorem mrun_capFrame (g : Nat) : ∀ (fuel : Nat) (r : RE),
    NoGroup g r → ∀ (s : List Char) (caps : Caps)
    (k : List Char → Caps → Option (List Char × Caps))
    (Q : Option (List Char × Caps) → Prop), Q none →
    (∀ s' c', getCap g c' = getCap g caps → Q (k s' c')) →
    Q (mrun fuel r s caps k) := by
  intro fuel
  induction fuel with
  | zero => intro r _ s caps k Q hn _; exact hn
  | succ f ih =>
    intro r hng s caps k Q hn hk
    cases r with
    | eps => exact hk s caps rfl
    | cls p =>
      simp only [mrun]
      cases s with
      | nil => exact hn
      | cons c rest =>
        simp only
        split
        · exact hk rest caps rfl
        · exact hn
    | seq a b =>
      refine ih a hng.1 s caps _ Q hn ?_
      intro s' c' hc'
      refine ih b hng.2 s' c' k Q hn ?_
      intro s'' c'' hc''
      exact hk s'' c'' (hc''.trans hc')
    | alt a b =>
      exact q_orElse _ _ (ih a hng.1 s caps k Q hn hk)
        (ih b hng.2 s caps k Q hn hk)
    | group n a =>
      refine ih a hng.2 s caps _ Q hn ?_
      intro s' c' hc'
      refine hk s' _ ?_
      rw [getCap_setCap_ne g n hng.1 _ c']
      exact hc'
    | eol =>
      simp only [mrun]
      split
      · exact hk s caps rfl
      · exact hn
    | rep a lo hi lz =>
      have hiter : Q (mrun f a s caps (fun s' c' =>
          if s'.length < s.length then
            mrun f (.rep a (lo - 1) (hi.map (· - 1)) lz) s' c' k
          else none)) := by
        refine ih a hng s caps _ Q hn ?_
        intro s' c' hc'
        split
        · refine ih (.rep a (lo - 1) (hi.map (· - 1)) lz) hng s' c' k
            Q hn ?_
          intro s'' c'' hc''
          exact hk s'' c'' (hc''.trans hc')
        · exact hn
      simp only [mrun]
      split
      · split
        · exact hk s caps rfl
        · exact hn
      · split
        · exact q_orElse _ _
            (by split
                · exact hk s caps rfl
                · exact hn)
            hiter
        · exact q_orElse _ _ hiter
            (by split
                · exact hk s caps rfl
                · exact hn)

theorem noGroup2_interior : NoGroup 2 spanAltInterior := by
  unfold spanAltInterior reSeq
  simp only [List.foldr]
  exact ⟨trivial, trivial, trivial, trivial, trivial, trivial, trivial,
    trivial, ⟨by decide, trivial⟩, trivial, trivial, trivial⟩

theorem noGroup1_trailing : NoGroup 1 spanAltTrailing := by
  unfold spanAltTrailing reSeq
  simp only [List.foldr]
  exact ⟨trivial, trivial, trivial, ⟨by decide, trivial, trivial⟩,
    trivial⟩

/-- Each single match of the span pattern populates at most one capture
slot: the interior-span alternative never writes slot 2, the
trailing-span alternative never writes slot 1. -/
theorem matchAt_span_slot (s rest : List Char) (caps : Caps)
    (h : matchAt regex_with_last_response s = some (rest, caps)) :
    caps.1 = none ∨ caps.2 = none := by
  unfold matchAt at h
  cases hF : (reSize regex_with_last_response + 2) * (s.length + 2) with
  | zero => rw [hF] at h; simp [mrun] at h
  | succ f =>
    rw [hF] at h
    have halt : mrun (f + 1) regex_with_last_response s (none, none)
        (fun s' c' => some (s', c')) =
        ((mrun f spanAltInterior s (none, none)
          (fun s' c' => some (s', c'))) <|>
        (mrun f spanAltTrailing s (none, none)
          (fun s' c' => some (s', c')))) := rfl
    rw [halt] at h
    cases hA : mrun f spanAltInterior s (none, none)
        (fun s' c' => some (s', c')) with
    | some v =>
      rw [hA] at h
      simp only [Option.some_orElse, Option.some.injEq] at h
      subst h
      refine Or.inr ?_
      have := mrun_capFrame 2 f spanAltInterior noGroup2_interior s
        (none, none) (fun s' c' => some (s', c'))
        (fun o => ∀ r2 c2, o = some (r2, c2) → c2.2 = none)
        (by intro r2 c2 hc; cases hc)
        (by intro s' c' hc' r2 c2 he
            injection he with he
            injection he with he1 he2
            subst he2
            simpa [getCap] using hc')
      exact this rest caps hA
    | none =>
      rw [hA] at h
      simp only [Option.none_orElse] at h
      refine Or.inl ?_
      have := mrun_capFrame 1 f spanAltTrailing noGroup1_trailing s
        (none, none) (fun s' c' => some (s', c'))
        (fun o => ∀ r2 c2, o = some (r2, c2) → c2.1 = none)
        (by intro r2 c2 hc; cases hc)
        (by intro s' c' hc' r2 c2 he
            injection he with he
            injection he with he1 he2
            subst he2
            simpa [getCap] using hc')
      exact this rest caps h

/-- Every span record the scanner returns has at most one populated
slot. -/
theorem refindAux_span_slot : ∀ (fuel : Nat) (s : List Char)
    (pr : List Char × Caps),
    pr ∈ refindAux regex_with_last_response fuel s →
    pr.2.1 = none ∨ pr.2.2 = none := by
  intro fuel
  induction fuel with
  | zero => intro s pr hp; simp [refindAux] at hp
  | succ f ih =>
    intro s pr
    have hstep : refindAux regex_with_last_response (f + 1) s =
        (match matchAt regex_with_last_response s with
         | some (rest, caps) =>
           if rest.length < s.length then
             (s.take (s.length - rest.length), caps) ::
               refindAux regex_with_last_response f rest
           else
             (s.take (s.length - rest.length), caps) ::
               (match s with
                | [] => []
                | _ :: t => refindAux regex_with_last_response f t)
         | none =>
           match s with
           | [] => []
           | _ :: t => refindAux regex_with_last_response f t) := rfl
    intro hp
    rw [hstep] at hp
    cases hm : matchAt regex_with_last_response s with
    | some v =>
      obtain ⟨rest, caps⟩ := v
      rw [hm] at hp
      simp only at hp
      split at hp
      · rcases List.mem_cons.mp hp with rfl | hp2
        · exact matchAt_span_slot s rest caps hm
        · exact ih rest pr hp2
      · rcases List.mem_cons.mp hp with rfl | hp2
        · exact matchAt_span_slot s rest caps hm
        · cases s with
          | nil => simp at hp2
          | cons c t => exact ih t pr hp2
    | none =>
      rw [hm] at hp
      cases s with
      | nil => simp at hp
      | cons c t => exact ih t pr hp

/-- Every span value returned by `apply_chat_sentence_regex` has at most
one non-empty slot. -/
theorem spans_at_most_one (chatlog : String) :
    ∀ pr ∈ apply_chat_sentence_regex chatlog,
    pr.1 = "" ∨ pr.2 = "" := by
  intro pr hpr
  unfold apply_chat_sentence_regex refindall at hpr
  obtain ⟨q, hq, hqe⟩ := List.mem_map.mp hpr
  rcases refindAux_span_slot (chatlog.data.length + 1) chatlog.data q
      hq with h | h
  · left
    rw [← hqe]
    simp [h]
  · right
    rw [← hqe]
    simp [h]

/-- C9 fails on the code: on this transcript the extractor's first span
value is `("", "")` — both slots empty, not exactly one populated. -/
theorem c9_counterexample :
    apply_chat_sentence_regex "( 10s ) ( 20s ) K: hi" =
      [("", ""), ("", "K: hi")] ∧
    ¬ ((("" : String) ≠ "" ∧ ("" : String) = "") ∨
      (("" : String) = "" ∧ ("" : String) ≠ "")) :=
  ⟨rfl, by decide⟩

/-- C9 amended: every span value returned by the segment extractor has at
most one non-empty slot (interior-match or trailing-match); when the
matched span text is empty, both slots are the empty string. -/
theorem c9_amended (chatlog : String) (pr : String × String)
    (hpr : pr ∈ apply_chat_sentence_regex chatlog) :
    pr.1 = "" ∨ pr.2 = "" :=
  spans_at_most_one chatlog pr hpr

/-- Witness for the amended C9 at the trailing span of a concrete
transcript. -/
theorem c9_amended_witness :
    ("" : String) = "" ∨ ("K: hi" : String) = "" :=
  c9_amended "( 10s ) ( 20s ) K: hi" ("", "K: hi") (by decide)

/-- Length of the slot-selected sentence list: one sentence per span,
plus one extra for every span with two empty slots (lines 111-115 append
twice for those). -/
theorem selectSentences_length : ∀ (cs : List (String × String)),
    (∀ pr ∈ cs, pr.1 = "" ∨ pr.2 = "") →
    (selectSentences cs).length =
      cs.length + cs.count ("", "") := by
  intro cs
  induction cs with
  | nil => intro _; rfl
  | cons pr rest ih =>
    intro hall
    obtain ⟨x, y⟩ := pr
    have hrest := ih (fun q hq => hall q (List.mem_cons_of_mem _ hq))
    rcases hall (x, y) (List.mem_cons_self _ _) with hx | hy
    · simp only at hx
      subst hx
      by_cases hy : y = ""
      · subst hy
        simp [selectSentences, hrest, List.count_cons]
        omega
      · simp [selectSentences, hrest, List.count_cons, hy]
        omega
    · simp only at hy
      subst hy
      by_cases hx : x = ""
      · subst hx
        simp [selectSentences, hrest, List.count_cons]
        omega
      · simp [selectSentences, hrest, List.count_cons, hx]
        omega

/-- When some span has two empty slots, the selected sentence list
contains an empty sentence at a position strictly below the span
count. -/
theorem selectSentences_empty_pos : ∀ (cs : List (String × String)),
    (∀ pr ∈ cs, pr.1 = "" ∨ pr.2 = "") → ("", "") ∈ cs →
    ∃ l1 l2, selectSentences cs = l1 ++ "" :: l2 ∧
      l1.length + 1 ≤ cs.length := by
  intro cs
  induction cs with
  | nil => intro _ hmem; simp at hmem
  | cons pr rest ih =>
    intro hall hmem
    obtain ⟨x, y⟩ := pr
    by_cases hxy : (x, y) = (("", "") : String × String)
    · injection hxy with hx hy
      subst hx; subst hy
      refine ⟨[], "" :: selectSentences rest, ?_, by simp⟩
      simp [selectSentences]
    · have hmem2 : ("", "") ∈ rest := by
        rcases List.mem_cons.mp hmem with he | h2
        · exact absurd he.symm hxy
        · exact h2
      obtain ⟨l1, l2, hsel, hlen⟩ :=
        ih (fun q hq => hall q (List.mem_cons_of_mem _ hq)) hmem2
      rcases hall (x, y) (List.mem_cons_self _ _) with hx | hy
      · simp only at hx
        subst hx
        have hy : y ≠ "" := fun he => hxy (by rw [he])
        refine ⟨y :: l1, l2, ?_, by simp; omega⟩
        simp [selectSentences, hy, hsel]
      · simp only at hy
        subst hy
        have hx : x ≠ "" := fun he => hxy (by rw [he])
        refine ⟨x :: l1, l2, ?_, by simp; omega⟩
        simp [selectSentences, hx, hsel]

/-- C6 fails on the code: this transcript yields N = 2 timestamp tokens
and M = 1 span with N ≠ M, but instead of producing min(N, M) = 1 turns
the pair loop hits the prefix-less span and aborts the whole run with
`IndexError`; no turns and no Corpus are produced. -/
theorem c6_counterexample :
    (apply_timestamp_regex "Agent Jan ( 10s ) nocolon ( 20s )").length
      = 2 ∧
    (apply_chat_sentence_regex
      "Agent Jan ( 10s ) nocolon ( 20s )").length = 1 ∧
    (2 : Nat) ≠ 1 ∧
    acquire_dialogue (initPC ["Agent Jan ( 10s ) nocolon ( 20s )"]) =
      (initPC ["Agent Jan ( 10s ) nocolon ( 20s )"],
        .error .indexError) :=
  ⟨rfl, rfl, by decide, rfl⟩

/-- C6 amended: for every transcript from which N timestamp tokens and M
text spans are extracted with N ≠ M, if the pair loop completes without
the malformed-span failure, exactly min(N, M) turns in total are
produced across the agent and client turn lists. -/
theorem c6_amended (t : String) (a : String) (acn : Option String)
    (ls : LoopSt) (N M : Nat)
    (hN : N = (apply_timestamp_regex t).length)
    (hM : M = (apply_chat_sentence_regex t).length)
    (hne : N ≠ M)
    (hok : buildLoop (pairsOf t) 0
      { agent := a, acn := acn, agents := [], clients := [] } = .ok ls) :
    ls.agents.length + ls.clients.length = min N M := by
  subst hN
  subst hM
  have hcount := buildLoop_counts (pairsOf t) 0 _ ls hok
  simp only [List.length_nil] at hcount
  have hzip : (pairsOf t).length =
      min (selectSentences (apply_chat_sentence_regex t)).length
        (apply_timestamp_regex t).length := by
    unfold pairsOf
    exact List.length_zip _ _
  have hsel := selectSentences_length (apply_chat_sentence_regex t)
    (spans_at_most_one t)
  rw [hcount, hzip]
  by_cases hc : (apply_chat_sentence_regex t).count ("", "") = 0
  · omega
  · have hmem : ("", "") ∈ apply_chat_sentence_regex t :=
      List.count_pos_iff.mp (by omega)
    obtain ⟨l1, l2, hdec, hlen⟩ := selectSentences_empty_pos
      (apply_chat_sentence_regex t) (spans_at_most_one t) hmem
    have hple : min (selectSentences (apply_chat_sentence_regex t)).length
        (apply_timestamp_regex t).length ≤ l1.length := by
      by_contra hlt
      push_neg at hlt
      have hp1 : l1.length <
          (selectSentences (apply_chat_sentence_regex t)).length := by
        omega
      have hp2 : l1.length < (apply_timestamp_regex t).length := by
        omega
      have hpz : l1.length < (pairsOf t).length := by
        rw [hzip]
        omega
      have hget : (pairsOf t)[l1.length] =
          ((selectSentences (apply_chat_sentence_regex t))[l1.length],
            (apply_timestamp_regex t)[l1.length]) := by
        unfold pairsOf
        exact List.getElem_zip
      have hsget : (selectSentences
          (apply_chat_sentence_regex t))[l1.length] = "" := by
        rw [List.getElem_of_eq hdec hp1]
        simp [List.getElem_append]
      have hmemp : ((("" : String),
          (apply_timestamp_regex t)[l1.length])) ∈ pairsOf t := by
        rw [← hsget, ← hget]
        exact List.getElem_mem _
      have := buildLoop_ok_all_some (pairsOf t) 0 _ ls hok _ hmemp
      exact this rfl
    omega

/-- Witness for the amended C6: 2 timestamp tokens, 1 span, and the
completed loop produces exactly min(2, 1) = 1 turn. -/
theorem c6_amended_witness :
    (LoopSt.agents
        { agent := "Jan", acn := some "K: ", agents := [],
          clients := [(0, "x ", "( 10s )")] }).length +
      (LoopSt.clients
        { agent := "Jan", acn := some "K: ", agents := [],
          clients := [(0, "x ", "( 10s )")] }).length = min 2 1 :=
  c6_amended "Agent Jan ( 10s ) K: x ( 20s )" "Jan" none
    { agent := "Jan", acn := some "K: ", agents := [],
      clients := [(0, "x ", "( 10s )")] }
    2 1 rfl rfl (by decide) rfl

end Chatlogs
